import Mathlib

/-!
Verification of the LinkedIn CLI client (scripts/oauth-server.py and
scripts/linkedin-api.py) against its natural-language specification.

The Python code is shallowly embedded: pure computations become Lean
functions, stdout/stderr output becomes lists of strings, `sys.exit`
becomes explicit outcome values, and network / filesystem effects become
oracle parameters supplied by the caller.  Python `dict`s are modelled as
association lists (later writes win, as in `parseFrontmatter` below) or,
for already-unique keys, first-match association lists.
-/

set_option maxHeartbeats 1000000
set_option maxRecDepth 100000

/-- The double-quote character (written via its code point to keep string
literals free of quote escapes). -/
def dqCh : Char := Char.ofNat 34

/-- The single-quote character. -/
def sqCh : Char := Char.ofNat 39

/-- A one-character string holding a double quote. -/
def dqS : String := String.singleton dqCh

/-- Characters stripped by Python `str.strip()` with no argument (ASCII
whitespace; the embedding covers the ASCII subset actually reachable from
this code base). -/
def isPyWs (c : Char) : Bool :=
  c == ' ' || c == '\t' || c == '\n' || c == '\r' || c == '\x0b' || c == '\x0c'

/-- Drop matching characters from the end of a list. -/
def dropWhileEnd (p : Char → Bool) (l : List Char) : List Char :=
  (l.reverse.dropWhile p).reverse

/-- Strip characters matching `p` from both ends (Python `str.strip`). -/
def stripList (p : Char → Bool) (l : List Char) : List Char :=
  dropWhileEnd p (l.dropWhile p)

/-- Python `s.strip()`. -/
def pyStrip (s : String) : String := ⟨stripList isPyWs s.data⟩

/-- Python `s.strip(c)` for a single-character argument. -/
def pyStripCh (c : Char) (s : String) : String := ⟨stripList (· == c) s.data⟩

/-- Python `p in s` for a single-character `p`. -/
def pyContainsCh (c : Char) (s : String) : Bool := s.data.contains c

/-- Python `s.startswith(p)`. -/
def pyStartsWith (s p : String) : Bool := p.data.isPrefixOf s.data

/-- Python `s.partition(c)` restricted to the pieces the code uses:
returns (part before the first occurrence of `c`, part after it); when
`c` does not occur the whole input is the first component and the second
is empty, exactly as in Python. -/
def pyPartitionCh (c : Char) : List Char → List Char × List Char
  | [] => ([], [])
  | a :: r =>
    if a == c then ([], r)
    else
      let p := pyPartitionCh c r
      (a :: p.1, p.2)

/-- `s.partition(c)` on strings (before, after). -/
def pyPartition (c : Char) (s : String) : String × String :=
  let p := pyPartitionCh c s.data
  (⟨p.1⟩, ⟨p.2⟩)

/-- Python `s.split(sep)` worker.  `fuel` bounds recursion depth; the
wrapper passes the input length, which is always sufficient. -/
def splitSepAux (sep : List Char) : Nat → List Char → List (List Char)
  | _, [] => [[]]
  | 0, l => [l]
  | fuel + 1, c :: rest =>
    if sep.isPrefixOf (c :: rest) then
      [] :: splitSepAux sep fuel (List.drop sep.length (c :: rest))
    else
      List.modifyHead (c :: ·) (splitSepAux sep fuel rest)

/-- `s.split(sep)` on character lists. -/
def splitL (sep l : List Char) : List (List Char) := splitSepAux sep l.length l

/-- Python `s.split(sep)` (for the non-empty separators used in the code). -/
def pySplit (sep s : String) : List String := (splitL sep.data s.data).map List.asString

/-- Python `s[-n:]` (the last `n` characters, or all of `s` when shorter). -/
def pyLastChars (n : Nat) (s : String) : String := ⟨s.data.drop (s.data.length - n)⟩

/-- ASCII lower-casing of a string, used to state case-insensitivity. -/
def lowerStr (s : String) : String := ⟨s.data.map Char.toLower⟩

/- ### OAuth callback handler (oauth-server.py, `OAuthCallbackHandler.do_GET`) -/

/-- The query parameters of the callback GET request, as produced by
`urllib.parse.parse_qs`: an association list from parameter name to the
(always non-empty, in `parse_qs` output) list of values. -/
abbrev Query := List (String × List String)

/-- Lookup of a query parameter (`k in params` ↔ the result is `some`). -/
def qGet? (q : Query) (k : String) : Option (List String) :=
  (q.find? (fun kv => kv.1 == k)).map (·.2)

/-- Python `params.get(k, dflt)[0]`: first element of the value list,
with a default list for absent keys.  (On `parse_qs` output every present
value list is non-empty; the `headD ""` branch is unreachable there.) -/
def qGetFirst (q : Query) (k : String) (dflt : List String) : String :=
  ((qGet? q k).getD dflt).headD ""

/-- The `auth_result` dictionary stored by the callback handler: either
`{"error": e, "error_description": d}`, or `{"error": "state_mismatch"}`,
or `{"code": c}`. -/
inductive AuthResult where
  | err (error desc : String)
  | mismatch
  | code (c : String)
deriving DecidableEq, Repr

/-- `OAuthCallbackHandler.do_GET` (oauth-server.py lines 104–137), reduced
to the computation of `auth_result` from the expected state token and the
parsed query parameters (the HTTP response bytes are not modelled). -/
def do_GET (expectedState : String) (q : Query) : AuthResult :=
  if (qGet? q "code").isNone then
    .err (qGetFirst q "error" ["unknown"]) (qGetFirst q "error_description" ["No details"])
  else
    let state := qGetFirst q "state" [""]
    if state ≠ expectedState then .mismatch
    else .code (qGetFirst q "code" [])

/-- `run_oauth_flow`'s treatment of `auth_result` (oauth-server.py lines
172–179): `None` or any dictionary containing an `"error"` key is a
failure (printed error plus `sys.exit(1)`); otherwise the authorization
code is extracted and the flow proceeds. -/
def oauth_flow_outcome : Option AuthResult → Except (String × String) String
  | none => .error ("no_response", "")
  | some (.err e d) => .error (e, d)
  | some .mismatch => .error ("state_mismatch", "")
  | some (.code c) => .ok c

/- ### Theorems for C1 and C3 -/

/-- C1, counterexample: a callback request whose `state` parameter
("" once defaulted) differs from the generated token "tok" but which
carries no `code` parameter is recorded through the `error` branch as
`{"error": "unknown", ...}`, not as the `state_mismatch` outcome — so the
claim that every state-differing request records `state_mismatch`
"regardless of whether a `code` parameter is also present" is false. -/
theorem C1_counterexample :
    qGetFirst ([] : Query) "state" [""] ≠ "tok" ∧
    do_GET "tok" ([] : Query) = .err "unknown" "No details" ∧
    do_GET "tok" ([] : Query) ≠ .mismatch := by
  decide

/-- C1 (amended): for every callback request whose `state` parameter
(after `params.get("state", [""])[0]`) differs from the generated token,
the handler never records a successful authorization code; when a `code`
parameter is moreover present, the recorded outcome is exactly the
`state_mismatch` error. -/
theorem C1_state_mismatch_never_code (expected : String) (q : Query)
    (hstate : qGetFirst q "state" [""] ≠ expected) :
    (∀ c, do_GET expected q ≠ .code c) ∧
    ((qGet? q "code").isSome → do_GET expected q = .mismatch) := by
  constructor
  · intro c
    unfold do_GET
    cases h : (qGet? q "code").isNone with
    | true => simp [h]
    | false => simp [h, hstate]
  · intro hcode
    unfold do_GET
    have : (qGet? q "code").isNone = false := by
      cases hq : qGet? q "code" with
      | none => rw [hq] at hcode; simp at hcode
      | some v => simp [hq]
    simp [this, hstate]

/-- C1 witness: the amended theorem applied to a concrete request having
both a `code` parameter and a wrong `state`. -/
theorem C1_state_mismatch_never_code_witness :
    (∀ c, do_GET "tok" [("code", ["abc"]), ("state", ["evil"])] ≠ .code c) ∧
    ((qGet? [("code", ["abc"]), ("state", ["evil"])] "code").isSome →
      do_GET "tok" [("code", ["abc"]), ("state", ["evil"])] = .mismatch) :=
  C1_state_mismatch_never_code "tok" [("code", ["abc"]), ("state", ["evil"])] (by decide)

/-- C3, counterexample: a callback request carrying `error=denied`
together with a `code` parameter and a matching `state` is recorded as a
successful code extraction — the handler checks `"code" not in params`
first, so the `error` parameter is ignored and the flow succeeds rather
than transitioning to Failed. -/
theorem C3_counterexample :
    (qGet? [("code", ["c"]), ("error", ["denied"]),
            ("error_description", ["d"]), ("state", ["tok"])] "error").isSome = true ∧
    do_GET "tok" [("code", ["c"]), ("error", ["denied"]),
                  ("error_description", ["d"]), ("state", ["tok"])] = .code "c" ∧
    oauth_flow_outcome (some (do_GET "tok"
      [("code", ["c"]), ("error", ["denied"]),
       ("error_description", ["d"]), ("state", ["tok"])])) = Except.ok "c" :=
  ⟨by decide, by decide, rfl⟩

/-- C3 (amended): when an `error` query parameter is present and no
`code` parameter is present, the handler records that error and its
description, and `run_oauth_flow` treats the result as a failure carrying
them; when a `code` parameter is present, the `error` parameter is
ignored by the handler. -/
theorem C3_error_param_fails (expected : String) (q : Query)
    (hcode : qGet? q "code" = none) (_herr : (qGet? q "error").isSome) :
    do_GET expected q =
      .err (qGetFirst q "error" ["unknown"]) (qGetFirst q "error_description" ["No details"]) ∧
    oauth_flow_outcome (some (do_GET expected q)) =
      Except.error (qGetFirst q "error" ["unknown"],
                    qGetFirst q "error_description" ["No details"]) := by
  have h : (qGet? q "code").isNone = true := by rw [hcode]; rfl
  constructor
  · unfold do_GET; simp [h]
  · unfold do_GET; simp [h, oauth_flow_outcome]

/-- C3 witness: the amended theorem at a concrete denied-authorization
request. -/
theorem C3_error_param_fails_witness :
    do_GET "tok" [("error", ["access_denied"]), ("error_description", ["user said no"])] =
      .err "access_denied" "user said no" ∧
    oauth_flow_outcome (some (do_GET "tok"
      [("error", ["access_denied"]), ("error_description", ["user said no"])])) =
      Except.error ("access_denied", "user said no") := by
  have := C3_error_param_fails "tok"
    [("error", ["access_denied"]), ("error_description", ["user said no"])]
    (by decide) (by decide)
  simpa [qGetFirst, qGet?] using this

/- ### Shared list/string helper lemmas -/

/-- A one-character string holding a single quote (apostrophe), used to
assemble message literals. -/
def sqS : String := String.singleton sqCh

/-- `List.isPrefixOf` agrees with the `<+:` relation. -/
theorem isPrefixOf_eq_true_iff {α : Type} [DecidableEq α] :
    ∀ (l₁ l₂ : List α), l₁.isPrefixOf l₂ = true ↔ l₁ <+: l₂
  | [], l₂ => by simp [List.isPrefixOf]
  | a :: as, [] => by simp [List.isPrefixOf]
  | a :: as, b :: bs => by
    simp only [List.isPrefixOf, Bool.and_eq_true, beq_iff_eq, List.cons_prefix_cons]
    exact and_congr Iff.rfl (isPrefixOf_eq_true_iff as bs)

/-- A string starts with itself in front of any continuation. -/
theorem pyStartsWith_append_self (p t : String) : pyStartsWith (p ++ t) p = true := by
  unfold pyStartsWith
  rw [isPrefixOf_eq_true_iff]
  exact ⟨t.data, by simp⟩

/-- A string does not start with `p` when its (long enough) literal head
already fails to. -/
theorem pyStartsWith_append_false (s p t : String) (hlen : p.data.length ≤ s.data.length)
    (hnp : ¬ p.data <+: s.data) : pyStartsWith (s ++ t) p = false := by
  unfold pyStartsWith
  rw [Bool.eq_false_iff, Ne, isPrefixOf_eq_true_iff]
  intro h
  rw [String.data_append] at h
  exact hnp ((List.isPrefix_append_of_length hlen).mp h)

/- ### Text-length pre-check (linkedin-api.py, `validate_text_length`) -/

/-- `validate_text_length` (linkedin-api.py lines 213–226): returns the
stderr lines it prints together with its boolean result.  It contains no
`sys.exit`, so — as reflected by this total function — it never stops the
calling command. -/
def validate_text_length (text : String) (warn_threshold : Nat := 3000) :
    List String × Bool :=
  if text.length > warn_threshold then
    (["WARNING=Text is " ++ (toString text.length ++ (" chars, exceeds LinkedIn" ++ (sqS ++
        ("s ~" ++ (toString warn_threshold ++
        " char limit. Post may be silently truncated by the API."))))),
      "RECOMMEND=Use --preview to upload images without posting, then paste text via LinkedIn" ++
        (sqS ++ "s web UI.")], false)
  else
    (["TEXT_LENGTH=" ++ (toString text.length ++ (" chars (limit ~" ++ (toString warn_threshold ++ ")")))],
     true)

/-- C6 (confirmed): with the 3000-character default threshold, the text
pre-check returns `false` and emits a `WARNING=` line exactly for texts of
length strictly greater than 3000, and returns `true` with no `WARNING=`
line for length at most 3000; being a total function without an exit
path, it never stops the command. -/
theorem C6_text_length_advisory (text : String) :
    ((validate_text_length text).2 = false ↔ text.length > 3000) ∧
    (text.length > 3000 →
      ∃ w ∈ (validate_text_length text).1, pyStartsWith w "WARNING=" = true) ∧
    (text.length ≤ 3000 →
      (validate_text_length text).2 = true ∧
      ∀ w ∈ (validate_text_length text).1, pyStartsWith w "WARNING=" = false) := by
  by_cases h : text.length > 3000
  · refine ⟨?_, fun _ => ?_, fun hle => absurd h (by omega)⟩
    · unfold validate_text_length
      rw [if_pos h]
      simpa using h
    · unfold validate_text_length
      rw [if_pos h]
      refine ⟨_, List.mem_cons_self _ _, ?_⟩
      rw [show ("WARNING=Text is " : String) = "WARNING=" ++ "Text is " from rfl,
        String.append_assoc]
      exact pyStartsWith_append_self _ _
  · refine ⟨?_, fun hgt => absurd hgt h, fun _ => ⟨?_, ?_⟩⟩
    · unfold validate_text_length
      rw [if_neg h]
      simpa using h
    · unfold validate_text_length
      rw [if_neg h]
    · unfold validate_text_length
      rw [if_neg h]
      intro w hw
      simp only [List.mem_singleton] at hw
      subst hw
      exact pyStartsWith_append_false _ _ _ (by decide) (by decide)

/-- C6 witness: the theorem applied to a concrete short text. -/
theorem C6_text_length_advisory_witness :
    ("hello".length ≤ 3000 →
      (validate_text_length "hello").2 = true ∧
      ∀ w ∈ (validate_text_length "hello").1, pyStartsWith w "WARNING=" = false) ∧
    ((validate_text_length "hello").2 = false ↔ "hello".length > 3000) :=
  ⟨(C6_text_length_advisory "hello").2.2, (C6_text_length_advisory "hello").1⟩

/- ### Post-text verification (linkedin-api.py, `verify_post_text`) -/

/-- `verify_post_text` (linkedin-api.py lines 190–210): the re-fetch of
the stored post is an oracle argument (`Except.error` models the
`SystemExit` raised by a failed `api_request`; `Except.ok stored` models
a successful fetch whose body yields commentary `stored`).  The result is
the list of stderr lines printed. -/
def verify_post_text (expected : String) (fetched : Except Unit String) : List String :=
  match fetched with
  | .error _ => ["WARNING=Could not verify post text (API read failed)"]
  | .ok stored =>
    if stored.length < expected.length then
      ["WARNING=Text truncated by LinkedIn API: sent " ++ (toString expected.length ++
         (" chars, stored " ++ (toString stored.length ++
         (" chars (" ++ (toString (stored.length * 100 / expected.length) ++ "%)"))))),
       "TRUNCATED_AT=" ++ pyLastChars 80 stored,
       "WARNING=Edit the post via LinkedIn web UI to fix the text. The REST API PARTIAL_UPDATE is unreliable for commentary."]
    else
      ["VERIFIED=Post text intact (" ++ (toString stored.length ++ " chars)")]

/-- An infix of the right part of an append is an infix of the whole. -/
theorem infix_append_right {α : Type} (l : List α) {x t : List α} (h : x <:+: t) :
    x <:+: l ++ t :=
  h.trans (List.suffix_append l t).isInfix

/-- C7 (confirmed): when the stored commentary is strictly shorter than
the submitted text, the verification step emits a non-fatal truncation
warning whose text contains the integer percentage
`stored.length * 100 / expected.length` followed by `%`, together with a
`TRUNCATED_AT=` line holding the retained tail fragment (the last 80
characters of the stored text); when the stored length is at least the
submitted length, no `WARNING=` line is emitted. -/
theorem C7_truncation_detection (expected stored : String) :
    (stored.length < expected.length →
      (∃ w ∈ verify_post_text expected (.ok stored),
        (toString (stored.length * 100 / expected.length) ++ "%").data <:+: w.data) ∧
      ("TRUNCATED_AT=" ++ pyLastChars 80 stored) ∈ verify_post_text expected (.ok stored)) ∧
    (expected.length ≤ stored.length →
      ∀ w ∈ verify_post_text expected (.ok stored), pyStartsWith w "WARNING=" = false) := by
  constructor
  · intro h
    simp only [verify_post_text]
    rw [if_pos h]
    constructor
    · refine ⟨_, List.mem_cons_self _ _, ?_⟩
      simp only [String.data_append]
      have hsplit : (toString (stored.length * 100 / expected.length)).data ++ ['%', ')'] =
          ((toString (stored.length * 100 / expected.length)).data ++ ['%']) ++ [')'] := by
        simp
      rw [hsplit]
      exact infix_append_right _ (infix_append_right _ (infix_append_right _
        (infix_append_right _ (infix_append_right _ ((List.prefix_append _ _).isInfix)))))
    · exact List.mem_cons_of_mem _ (List.mem_cons_self _ _)
  · intro h
    have hnl : ¬ stored.length < expected.length := by omega
    simp only [verify_post_text]
    rw [if_neg hnl]
    intro w hw
    simp only [List.mem_singleton] at hw
    subst hw
    exact pyStartsWith_append_false _ _ _ (by decide) (by decide)

/-- C7 witness: the theorem at sent length 5 and stored length 4, whose
reported percentage is 80%. -/
theorem C7_truncation_detection_witness :
    ("abcd".length < "abcde".length →
      (∃ w ∈ verify_post_text "abcde" (.ok "abcd"),
        (toString ("abcd".length * 100 / "abcde".length) ++ "%").data <:+: w.data) ∧
      ("TRUNCATED_AT=" ++ pyLastChars 80 "abcd") ∈ verify_post_text "abcde" (.ok "abcd")) ∧
    ((toString ("abcd".length * 100 / "abcde".length) ++ "%") = "80%") :=
  ⟨fun h => (C7_truncation_detection "abcde" "abcd").1 h, by decide⟩

/- ### Post creation (linkedin-api.py, `create_post`) -/

/-- Response headers of the post-creation call, as the Python code sees
them after `dict(resp.headers)`: an association list with unique keys. -/
abbrev Headers := List (String × String)

/-- Python `headers.get(k)` on the response-header dictionary. -/
def headerGet? (h : Headers) (k : String) : Option String :=
  (h.find? (fun kv => kv.1 == k)).map (·.2)

/-- The post-id extraction of `create_post` (linkedin-api.py line 181):
`resp["headers"].get("x-restli-id", resp["headers"].get("X-Restli-Id", ""))`. -/
def extract_post_id (h : Headers) : String :=
  (headerGet? h "x-restli-id").getD ((headerGet? h "X-Restli-Id").getD "")

/-- `create_post` (linkedin-api.py lines 160–187), observed through the
post id it returns and the verification messages it prints.  The request
body (author/commentary/visibility/distribution envelope) does not
influence either observation and is not modelled; the response headers
and the verification re-fetch are oracle arguments. -/
def create_post (text : String) (respHeaders : Headers) (fetched : Except Unit String) :
    String × List String :=
  let post_id := extract_post_id respHeaders
  (post_id, if post_id ≠ "" then verify_post_text text fetched else [])

/-- When neither probed spelling of the id header is present, the
extracted post id is empty. -/
theorem extract_post_id_none (h : Headers) (h1 : headerGet? h "x-restli-id" = none)
    (h2 : headerGet? h "X-Restli-Id" = none) : extract_post_id h = "" := by
  simp [extract_post_id, h1, h2]

/-- C9, counterexample: a response whose id header is spelled
`X-RESTLI-ID` — a letter-casing other than the two spellings probed by
the code — contains the id header up to case, yet `create_post`'s
extraction returns `""` instead of its value, so the lookup is not
case-insensitive. -/
theorem C9_counterexample :
    (∃ kv ∈ ([("X-RESTLI-ID", "urn:li:share:42")] : Headers),
      lowerStr kv.1 = "x-restli-id" ∧ kv.2 = "urn:li:share:42") ∧
    extract_post_id [("X-RESTLI-ID", "urn:li:share:42")] = "" := by
  decide

/-- C9 (amended): the post id is obtained by probing exactly the two
spellings `x-restli-id` and then `X-Restli-Id` of the id response header
(not an arbitrary-casing lookup): if the lower-case spelling is present
its value is returned; otherwise, if the capitalized spelling is present
its value is returned; otherwise the empty string is returned. -/
theorem C9_post_id_header_lookup (h : Headers) (v : String) :
    (headerGet? h "x-restli-id" = some v → extract_post_id h = v) ∧
    (headerGet? h "x-restli-id" = none → headerGet? h "X-Restli-Id" = some v →
      extract_post_id h = v) ∧
    (headerGet? h "x-restli-id" = none → headerGet? h "X-Restli-Id" = none →
      extract_post_id h = "") := by
  refine ⟨fun h1 => ?_, fun h1 h2 => ?_, fun h1 h2 => ?_⟩
  · simp [extract_post_id, h1]
  · simp [extract_post_id, h1, h2]
  · exact extract_post_id_none h h1 h2

/-- C9 witness: the amended theorem applied to concrete header maps in
each of the two probed spellings. -/
theorem C9_post_id_header_lookup_witness :
    (headerGet? [("x-restli-id", "u1")] "x-restli-id" = some "u1" →
      extract_post_id [("x-restli-id", "u1")] = "u1") ∧
    (headerGet? [("X-Restli-Id", "u2")] "x-restli-id" = none →
      headerGet? [("X-Restli-Id", "u2")] "X-Restli-Id" = some "u2" →
      extract_post_id [("X-Restli-Id", "u2")] = "u2") :=
  ⟨(C9_post_id_header_lookup [("x-restli-id", "u1")] "u1").1,
   (C9_post_id_header_lookup [("X-Restli-Id", "u2")] "u2").2.1⟩

/-- C10 (confirmed): when the response headers contain neither
`x-restli-id` nor `X-Restli-Id`, `create_post` returns the empty string
as the post id and prints no verification output (the re-fetch is
skipped); in general the verification step runs only when a non-empty id
was extracted. -/
theorem C10_missing_id_header_skips_verify (h : Headers) (text : String)
    (fetched : Except Unit String)
    (h1 : headerGet? h "x-restli-id" = none) (h2 : headerGet? h "X-Restli-Id" = none) :
    create_post text h fetched = ("", []) ∧
    (∀ (h' : Headers) (t : String) (f : Except Unit String),
      (create_post t h' f).2 ≠ [] → extract_post_id h' ≠ "") := by
  constructor
  · have hid : extract_post_id h = "" := extract_post_id_none h h1 h2
    simp [create_post, hid]
  · intro h' t f hne hid
    exact hne (by simp [create_post, hid])

/-- C10 witness: a concrete response with unrelated headers only. -/
theorem C10_missing_id_header_skips_verify_witness :
    create_post "hello" [("content-type", "application/json")] (.ok "hello") = ("", []) :=
  (C10_missing_id_header_skips_verify [("content-type", "application/json")] "hello"
    (.ok "hello") (by decide) (by decide)).1

/- ### Comment listing and post reading (linkedin-api.py, `cmd_list_comments`, `cmd_get_post`) -/

/-- One element of the `elements` array returned by the comments API, as
accessed by `cmd_list_comments` (missing JSON fields already replaced by
the `.get` defaults the code uses). -/
structure CommentEntry where
  actor : String
  text : String
  commentUrn : String
  id : String
  createdMs : Nat
  likes : Nat
deriving DecidableEq, Repr

/-- The lines printed for one comment (linkedin-api.py lines 447–463).
`fmtTime` is an oracle for `time.strftime("%Y-%m-%d %H:%M:%S",
time.localtime(created_ms / 1000))`. -/
def commentLines (fmtTime : Nat → String) (total : Nat) (i : Nat) (c : CommentEntry) :
    List String :=
  ["---COMMENT_" ++ (toString (i + 1) ++ ("/" ++ (toString total ++ "---"))),
   "ACTOR=" ++ c.actor,
   "COMMENT_URN=" ++ c.commentUrn,
   "COMMENT_ID=" ++ c.id,
   "CREATED=" ++ (if c.createdMs ≠ 0 then fmtTime c.createdMs else "unknown"),
   "LIKES=" ++ toString c.likes,
   "TEXT=" ++ c.text]

/-- `cmd_list_comments` (linkedin-api.py lines 420–463), observed through
the process exit status and the printed lines.  The API call is an oracle:
`Except.error` models `api_request` raising `SystemExit` (a non-2xx
response such as the permission-restricted read), `Except.ok` carries the
parsed `elements` array.  On the failure path the code prints three
informational `LIST_FAILED=` lines and then calls `sys.exit(1)`. -/
def cmd_list_comments (fmtTime : Nat → String)
    (api : Except Unit (List CommentEntry)) : Nat × List String :=
  match api with
  | .error _ =>
    (1, ["LIST_FAILED=Reading comments requires r_member_social scope (restricted).",
         "LIST_FAILED=This scope is only available to select LinkedIn API partners.",
         "LIST_FAILED=View comments on LinkedIn" ++ (sqS ++
           "s website instead. Writing comments (create-comment, reply-comment) still works with w_member_social.")])
  | .ok comments =>
    if comments.isEmpty then (0, ["NO_COMMENTS=No comments found on this post"])
    else
      (0, ("COMMENT_COUNT=" ++ toString comments.length) ::
        (comments.enum.map (fun ic => commentLines fmtTime comments.length ic.1 ic.2)).flatten)

/-- `cmd_get_post` (linkedin-api.py lines 399–417): on an API failure the
command prints two `VERIFY_FAILED=` lines and calls `sys.exit(0)`; on
success it prints the commentary and returns normally (exit status 0). -/
def cmd_get_post (api : Except Unit String) : Nat × List String :=
  match api with
  | .error _ =>
    (0, ["VERIFY_FAILED=GET /posts requires additional API permissions (r_member_social).",
         "VERIFY_FAILED=Cannot read post back to verify. Check manually on LinkedIn."])
  | .ok commentary =>
    (0, ["COMMENTARY_LENGTH=" ++ toString commentary.length,
         "COMMENTARY_START=" ++ (⟨commentary.data.take 100⟩ : String),
         "COMMENTARY_END=" ++ pyLastChars 100 commentary,
         "FULL_COMMENTARY=" ++ commentary])

/-- C2, counterexample: when the comments API call fails (e.g. the
permission-restricted read), `cmd_list_comments` terminates the process
with exit status 1, not 0 — the claimed degraded-but-successful exit does
not hold for the list-comments command. -/
theorem C2_counterexample :
    (cmd_list_comments (fun _ => "") (Except.error ())).1 = 1 ∧
    (cmd_list_comments (fun _ => "") (Except.error ())).1 ≠ 0 := by
  exact ⟨rfl, by decide⟩

/-- C2 (amended): when listing comments fails, the command prints three
informational `LIST_FAILED=` lines but terminates with exit status 1
(non-zero); the degraded informational outcome with exit status 0 exists
in `cmd_get_post`, whose failed read prints `VERIFY_FAILED=` lines and
exits 0. -/
theorem C2_list_comments_failure_exit (fmtTime : Nat → String) (u : Unit)
    (api : Except Unit String) (hapi : api.isOk = false) :
    cmd_list_comments fmtTime (Except.error u) =
      (1, ["LIST_FAILED=Reading comments requires r_member_social scope (restricted).",
           "LIST_FAILED=This scope is only available to select LinkedIn API partners.",
           "LIST_FAILED=View comments on LinkedIn" ++ (sqS ++
             "s website instead. Writing comments (create-comment, reply-comment) still works with w_member_social.")]) ∧
    (cmd_get_post api).1 = 0 := by
  constructor
  · rfl
  · cases api with
    | error e => rfl
    | ok c => rfl

/-- C2 witness: the amended theorem at concrete failing calls. -/
theorem C2_list_comments_failure_exit_witness :
    (cmd_list_comments (fun _ => "") (Except.error ())).1 = 1 ∧
    (cmd_get_post (Except.error ())).1 = 0 :=
  ⟨by rw [(C2_list_comments_failure_exit (fun _ => "") () (Except.error ()) (by decide)).1],
   (C2_list_comments_failure_exit (fun _ => "") () (Except.error ()) (by decide)).2⟩

/- ### Image upload and multi-image posting (linkedin-api.py) -/

/-- One network call issued by the client, as observed for the
multi-image command: the two-phase upload of `upload_image` (initialize
POST, then binary PUT) and the post-creation POST of `create_post`. -/
inductive NetEvent where
  | initUpload (path : String)
  | putBytes (path : String)
  | createPost
deriving DecidableEq, Repr

/-- `upload_image` (linkedin-api.py lines 116–157), observed through its
network calls and returned image URN.  The local existence check precedes
any network call: a missing file exits with no events (`Except.error`).
The upload oracles assume the two HTTP calls succeed (`api_request` would
otherwise exit the process); `urnOf` is the `image` URN of the
initialize-upload response. -/
def upload_image (fileExists : String → Bool) (urnOf : String → String) (path : String) :
    Except Unit (List NetEvent × String) :=
  if fileExists path then .ok ([.initUpload path, .putBytes path], urnOf path)
  else .error ()

/-- The upload loop of `cmd_post_multi_image` (lines 321–325): uploads
each image in argument order, stopping at the first failure. -/
def uploadAll (fileExists : String → Bool) (urnOf : String → String) :
    List String → List NetEvent × Except Unit (List String)
  | [] => ([], .ok [])
  | p :: rest =>
    match upload_image fileExists urnOf p with
    | .error _ => ([], .error ())
    | .ok (evs, urn) =>
      let r := uploadAll fileExists urnOf rest
      (evs ++ r.1, r.2.map (urn :: ·))

/-- Outcome of `cmd_post_multi_image`: `argError` is the `sys.exit(1)` of
the minimum-image check, `uploadFailed` the exit inside a failed upload,
`previewed` the preview-mode return, `posted` carries the images payload
(image URN with optional alt text, lines 339–345) and the extracted post
id. -/
inductive MultiOutcome where
  | argError
  | uploadFailed
  | previewed (urns : List String)
  | posted (payload : List (String × Option String)) (postId : String)
deriving DecidableEq, Repr

/-- `cmd_post_multi_image` (linkedin-api.py lines 309–356), observed
through its network events and outcome.  Settings loading, text
resolution and the advisory `validate_text_length` call all precede the
minimum-image check and issue no network calls. -/
def cmd_post_multi_image (fileExists : String → Bool) (urnOf : String → String)
    (respHeaders : Headers) (fetched : Except Unit String)
    (images altTexts : List String) (preview : Bool) (text : String) :
    List NetEvent × MultiOutcome :=
  if images.length < 2 then ([], .argError)
  else
    match uploadAll fileExists urnOf images with
    | (evs, .error _) => (evs, .uploadFailed)
    | (evs, .ok urns) =>
      if preview then (evs, .previewed urns)
      else
        (evs ++ [.createPost],
         .posted (urns.enum.map (fun iu => (iu.2, altTexts[iu.1]?)))
                 (create_post text respHeaders fetched).1)

/-- C5 (confirmed): with exactly one image path, the multi-image command
exits with the argument-validation error having issued no network call at
all; with exactly two image paths (both files present, uploads
succeeding, preview off) it issues the two uploads in argument order and
only then the single post-creation call. -/
theorem C5_multi_image_minimum :
    (∀ (fileExists : String → Bool) (urnOf : String → String) (h : Headers)
       (f : Except Unit String) (altTexts : List String) (preview : Bool)
       (text img : String),
      cmd_post_multi_image fileExists urnOf h f [img] altTexts preview text =
        ([], .argError)) ∧
    (∀ (fileExists : String → Bool) (urnOf : String → String) (h : Headers)
       (f : Except Unit String) (altTexts : List String) (text a b : String),
      fileExists a = true → fileExists b = true →
      cmd_post_multi_image fileExists urnOf h f [a, b] altTexts false text =
        ([.initUpload a, .putBytes a, .initUpload b, .putBytes b, .createPost],
         .posted [(urnOf a, altTexts[0]?), (urnOf b, altTexts[1]?)]
                 (extract_post_id h))) := by
  constructor
  · intro fileExists urnOf h f altTexts preview text img
    simp [cmd_post_multi_image]
  · intro fileExists urnOf h f altTexts text a b ha hb
    have hup : uploadAll fileExists urnOf [a, b] =
        ([.initUpload a, .putBytes a, .initUpload b, .putBytes b], .ok [urnOf a, urnOf b]) := by
      simp [uploadAll, upload_image, ha, hb, Except.map]
    simp [cmd_post_multi_image, hup, create_post, List.enum, List.enumFrom]

/-- C5 witness: the theorem at concrete inputs (one image, then two). -/
theorem C5_multi_image_minimum_witness :
    cmd_post_multi_image (fun _ => true) (fun p => "urn:li:image:" ++ p) [] (.error ())
      ["a.png"] [] false "t" = ([], .argError) ∧
    cmd_post_multi_image (fun _ => true) (fun p => "urn:li:image:" ++ p) [] (.error ())
      ["a.png", "b.png"] [] false "t" =
      ([.initUpload "a.png", .putBytes "a.png", .initUpload "b.png", .putBytes "b.png",
        .createPost],
       .posted [("urn:li:image:" ++ "a.png", none), ("urn:li:image:" ++ "b.png", none)]
               (extract_post_id [])) :=
  ⟨C5_multi_image_minimum.1 (fun _ => true) (fun p => "urn:li:image:" ++ p) [] (.error ())
     [] false "t" "a.png",
   C5_multi_image_minimum.2 (fun _ => true) (fun p => "urn:li:image:" ++ p) [] (.error ())
     [] "t" "a.png" "b.png" rfl rfl⟩

/- ### Decimal rendering and parsing (Python `str(int)` / `int(str)`) -/

/-- The character for decimal digit `n` (`n < 10`). -/
def digCh (n : Nat) : Char := Char.ofNat (48 + n)

/-- Decimal digits of `n`, least significant first; `fuel` bounds the
recursion (any `fuel > n` is sufficient). -/
def natToDigitsRev (fuel n : Nat) : List Char :=
  match fuel with
  | 0 => []
  | fuel + 1 => if n < 10 then [digCh n] else digCh (n % 10) :: natToDigitsRev fuel (n / 10)

/-- Python `str(n)` for a natural number. -/
def natRepr (n : Nat) : String := ⟨(natToDigitsRev (n + 1) n).reverse⟩

/-- Python `str(i)` for an integer. -/
def intRepr (i : Int) : String := if i < 0 then "-" ++ natRepr i.natAbs else natRepr i.toNat

/-- Numeric value of a digit character. -/
def digVal (c : Char) : Nat := c.toNat - 48

/-- Left-to-right accumulation of decimal digits; `none` on a non-digit. -/
def parseNatAux : List Char → Nat → Option Nat
  | [], acc => some acc
  | c :: r, acc => if c.isDigit then parseNatAux r (acc * 10 + digVal c) else none

/-- Parse a non-empty all-digit list. -/
def parseDigits : List Char → Option Nat
  | [] => none
  | l => parseNatAux l 0

/-- Python `int(s)` on a character list, restricted to the shapes
reachable here (an optional sign followed by decimal digits — the only
shapes `save_settings` writes and the stripped frontmatter values take);
other inputs make `int()` raise, modelled as `none`. -/
def pyIntParseL : List Char → Option Int
  | [] => none
  | c :: rest =>
    if c == '-' then
      match parseDigits rest with
      | none => none
      | some n => some (-(n : Int))
    else if c == '+' then
      match parseDigits rest with
      | none => none
      | some n => some ((n : Int))
    else
      match parseDigits (c :: rest) with
      | none => none
      | some n => some ((n : Int))

/-- Python `int(s)` (see `pyIntParseL`). -/
def pyIntParse? (s : String) : Option Int := pyIntParseL s.data

theorem digCh_isDigit (n : Nat) (h : n < 10) : (digCh n).isDigit = true := by
  interval_cases n <;> decide

theorem digVal_digCh (n : Nat) (h : n < 10) : digVal (digCh n) = n := by
  interval_cases n <;> decide

theorem natToDigitsRev_fuel (f1 : Nat) :
    ∀ (f2 n : Nat), n < f1 → n < f2 → natToDigitsRev f1 n = natToDigitsRev f2 n := by
  induction f1 with
  | zero => intro f2 n h1; omega
  | succ g ih =>
    intro f2 n h1 h2
    cases f2 with
    | zero => omega
    | succ g2 =>
      show natToDigitsRev (g + 1) n = natToDigitsRev (g2 + 1) n
      by_cases hn : n < 10
      · simp [natToDigitsRev, hn]
      · simp only [natToDigitsRev, if_neg hn]
        have hd : n / 10 < g := by
          have : n / 10 < n := Nat.div_lt_self (by omega) (by omega)
          omega
        have hd2 : n / 10 < g2 := by
          have : n / 10 < n := Nat.div_lt_self (by omega) (by omega)
          omega
        rw [ih g2 (n / 10) hd hd2]

theorem natToDigitsRev_ne_nil (fuel n : Nat) (h : 0 < fuel) : natToDigitsRev fuel n ≠ [] := by
  cases fuel with
  | zero => omega
  | succ g =>
    by_cases hn : n < 10 <;> simp [natToDigitsRev, hn]

theorem natToDigitsRev_digits (fuel : Nat) :
    ∀ n, n < fuel → ∀ c ∈ natToDigitsRev fuel n, c.isDigit = true := by
  induction fuel with
  | zero => intro n h; omega
  | succ g ih =>
    intro n h c hc
    by_cases hn : n < 10
    · simp [natToDigitsRev, hn] at hc
      subst hc
      exact digCh_isDigit n hn
    · simp only [natToDigitsRev, if_neg hn, List.mem_cons] at hc
      rcases hc with hc | hc
      · subst hc
        exact digCh_isDigit (n % 10) (Nat.mod_lt n (by omega))
      · have hd : n / 10 < g := by
          have : n / 10 < n := Nat.div_lt_self (by omega) (by omega)
          omega
        exact ih (n / 10) hd c hc

theorem natRepr_digits (n : Nat) : ∀ c ∈ (natRepr n).data, c.isDigit = true := by
  intro c hc
  simp only [natRepr, List.mem_reverse] at hc
  exact natToDigitsRev_digits (n + 1) n (by omega) c hc

theorem natRepr_ne_nil (n : Nat) : (natRepr n).data ≠ [] := by
  simp only [natRepr]
  intro h
  exact natToDigitsRev_ne_nil (n + 1) n (by omega) (by simpa using h)

theorem parseNatAux_append (l₁ l₂ : List Char) :
    ∀ acc, parseNatAux (l₁ ++ l₂) acc =
      match parseNatAux l₁ acc with
      | none => none
      | some a => parseNatAux l₂ a := by
  induction l₁ with
  | nil => intro acc; rfl
  | cons c r ih =>
    intro acc
    by_cases hc : c.isDigit
    · simp only [List.cons_append, parseNatAux, if_pos hc]
      exact ih _
    · simp only [List.cons_append, parseNatAux, if_neg hc]

theorem parseNatAux_natRepr (n : Nat) : parseNatAux (natRepr n).data 0 = some n := by
  induction n using Nat.strong_induction_on with
  | _ n ih =>
    by_cases hn : n < 10
    · have hrep : (natRepr n).data = [digCh n] := by
        simp [natRepr, natToDigitsRev, hn]
      rw [hrep]
      simp [parseNatAux, digCh_isDigit n hn, digVal_digCh n hn]
    · have hrep : (natRepr n).data = (natRepr (n / 10)).data ++ [digCh (n % 10)] := by
        show (natToDigitsRev (n + 1) n).reverse = _
        have hstep : natToDigitsRev (n + 1) n = digCh (n % 10) :: natToDigitsRev n (n / 10) := by
          simp [natToDigitsRev, hn]
        rw [hstep, List.reverse_cons]
        congr 1
        show (natToDigitsRev n (n / 10)).reverse = (natToDigitsRev (n / 10 + 1) (n / 10)).reverse
        congr 1
        exact natToDigitsRev_fuel n (n / 10 + 1) (n / 10)
          (by
            have : n / 10 < n := Nat.div_lt_self (by omega) (by omega)
            omega)
          (by omega)
      rw [hrep, parseNatAux_append]
      have hdiv : n / 10 < n := Nat.div_lt_self (by omega) (by omega)
      rw [ih (n / 10) hdiv]
      have hmod : n % 10 < 10 := Nat.mod_lt n (by omega)
      simp only [parseNatAux, if_pos (digCh_isDigit _ hmod), digVal_digCh _ hmod]
      have := Nat.div_add_mod n 10
      congr 1
      omega

theorem parseDigits_natRepr (n : Nat) : parseDigits (natRepr n).data = some n := by
  have hne := natRepr_ne_nil n
  cases hrep : (natRepr n).data with
  | nil => exact absurd hrep hne
  | cons c r =>
    show parseNatAux (c :: r) 0 = some n
    rw [← hrep]
    exact parseNatAux_natRepr n

theorem digit_ne_of_not_digit (c d : Char) (h : c.isDigit = true) (hd : d.isDigit = false) :
    c ≠ d := by
  intro e
  subst e
  rw [h] at hd
  cases hd

theorem natRepr_head_digit (n : Nat) :
    ∃ c r, (natRepr n).data = c :: r ∧ c.isDigit = true := by
  cases hrep : (natRepr n).data with
  | nil => exact absurd hrep (natRepr_ne_nil n)
  | cons c r =>
    refine ⟨c, r, rfl, ?_⟩
    exact natRepr_digits n c (by rw [hrep]; exact List.mem_cons_self _ _)

theorem natRepr_last_digit (n : Nat) :
    ∃ pre d, (natRepr n).data = pre ++ [d] ∧ d.isDigit = true := by
  have hne := natRepr_ne_nil n
  refine ⟨(natRepr n).data.dropLast, (natRepr n).data.getLast hne, ?_, ?_⟩
  · exact (List.dropLast_append_getLast hne).symm
  · exact natRepr_digits n _ (List.getLast_mem hne)

theorem pyIntParse?_intRepr (i : Int) : pyIntParse? (intRepr i) = some i := by
  by_cases hi : i < 0
  · have hrep : (intRepr i).data = '-' :: (natRepr i.natAbs).data := by
      simp [intRepr, if_pos hi, String.data_append]
    rw [pyIntParse?, hrep]
    simp only [pyIntParseL]
    rw [if_pos (show (('-' : Char) == '-') = true from rfl)]
    rw [parseDigits_natRepr]
    show some (-(i.natAbs : Int)) = some i
    congr 1
    omega
  · obtain ⟨c, r, hcr, hcd⟩ := natRepr_head_digit i.toNat
    have hrep : (intRepr i).data = c :: r := by
      simp only [intRepr, if_neg hi]
      exact hcr
    rw [pyIntParse?, hrep]
    simp only [pyIntParseL]
    have hcm : (c == '-') = false := beq_eq_false_iff_ne.mpr
      (digit_ne_of_not_digit c '-' hcd (by decide))
    have hcp : (c == '+') = false := beq_eq_false_iff_ne.mpr
      (digit_ne_of_not_digit c '+' hcd (by decide))
    rw [hcm, hcp]
    simp only [Bool.false_eq_true, if_false]
    rw [← hcr, parseDigits_natRepr]
    show some ((i.toNat : Int)) = some i
    congr 1
    omega

/- ### Strip / partition / contains lemmas -/

theorem dropWhile_id_of_head (p : Char → Bool) (l : List Char)
    (h : ∀ c r, l = c :: r → p c = false) : l.dropWhile p = l := by
  cases hl : l with
  | nil => rfl
  | cons c r =>
    rw [List.dropWhile_cons, h c r hl]
    simp

theorem dropWhileEnd_id_of_last (p : Char → Bool) (l : List Char)
    (h : ∀ pre d, l = pre ++ [d] → p d = false) : dropWhileEnd p l = l := by
  cases hl : l.reverse with
  | nil =>
    have hnil : l = [] := by
      have := congrArg List.reverse hl
      simpa using this
    simp [dropWhileEnd, hnil]
  | cons d pre' =>
    have hld : l = pre'.reverse ++ [d] := by
      have := congrArg List.reverse hl
      simpa using this
    unfold dropWhileEnd
    rw [hl, List.dropWhile_cons, h pre'.reverse d hld]
    simp only [if_false, Bool.false_eq_true]
    rw [← hl, List.reverse_reverse]

theorem dropWhileEnd_concat_pos (p : Char → Bool) (l : List Char) (b : Char)
    (hb : p b = true) : dropWhileEnd p (l ++ [b]) = dropWhileEnd p l := by
  unfold dropWhileEnd
  rw [List.reverse_append]
  simp [List.dropWhile_cons, hb]

theorem stripList_id (p : Char → Bool) (v : List Char)
    (hhead : ∀ c r, v = c :: r → p c = false)
    (hlast : ∀ pre d, v = pre ++ [d] → p d = false) :
    stripList p v = v := by
  unfold stripList
  rw [dropWhile_id_of_head p v hhead]
  exact dropWhileEnd_id_of_last p v hlast

theorem stripList_drop_one (p : Char → Bool) (a : Char) (core : List Char)
    (hpa : p a = true)
    (hhead : ∀ c r, core = c :: r → p c = false)
    (hlast : ∀ pre d, core = pre ++ [d] → p d = false) :
    stripList p (a :: core) = core := by
  unfold stripList
  rw [List.dropWhile_cons, hpa]
  simp only [if_true]
  rw [dropWhile_id_of_head p core hhead]
  exact dropWhileEnd_id_of_last p core hlast

theorem stripList_wrap (p : Char → Bool) (a b : Char) (core : List Char)
    (hpa : p a = true) (hpb : p b = true)
    (hhead : ∀ c r, core = c :: r → p c = false)
    (hlast : ∀ pre d, core = pre ++ [d] → p d = false) :
    stripList p (a :: (core ++ [b])) = core := by
  unfold stripList
  rw [List.dropWhile_cons, hpa]
  simp only [if_true]
  cases hcore : core with
  | nil =>
    simp [List.dropWhile_cons, hpb, dropWhileEnd]
  | cons c r =>
    rw [List.cons_append, List.dropWhile_cons, hhead c r hcore]
    simp only [if_false, Bool.false_eq_true]
    rw [show c :: (r ++ [b]) = (c :: r) ++ [b] from rfl]
    rw [dropWhileEnd_concat_pos p (c :: r) b hpb]
    exact dropWhileEnd_id_of_last p (c :: r) (fun pre d hd => hlast pre d (hcore ▸ hd))

theorem stripQuote (q : Char) (v : List Char)
    (hhead : ∀ c r, v = c :: r → c ≠ q)
    (hlast : ∀ pre d, v = pre ++ [d] → d ≠ q) :
    stripList (· == q) (q :: (v ++ [q])) = v := by
  unfold stripList
  rw [List.dropWhile_cons]
  simp only [beq_self_eq_true, if_true]
  cases hv : v with
  | nil =>
    simp [List.dropWhile_cons, dropWhileEnd]
  | cons c r =>
    rw [List.cons_append, List.dropWhile_cons,
      beq_eq_false_iff_ne.mpr (hhead c r hv)]
    simp only [if_false, Bool.false_eq_true]
    rw [show c :: (r ++ [q]) = (c :: r) ++ [q] from rfl]
    rw [dropWhileEnd_concat_pos _ (c :: r) q (by simp)]
    exact dropWhileEnd_id_of_last _ (c :: r)
      (fun pre d hd => beq_eq_false_iff_ne.mpr (hlast pre d (hv ▸ hd)))

theorem last_eq_of_concat {α : Type} (pre pre' : List α) (d d' : α)
    (h : pre ++ [d] = pre' ++ [d']) : d = d' := by
  have := congrArg List.getLast? h
  simpa [List.getLast?_concat] using this

theorem contains_of_mem (l : List Char) (a : Char) (h : a ∈ l) : l.contains a = true := by
  induction l with
  | nil => cases h
  | cons b r ih =>
    rcases List.mem_cons.mp h with he | hr
    · subst he
      simp [List.contains_cons]
    · simp only [List.contains_cons, Bool.or_eq_true, beq_iff_eq]
      exact Or.inr (by simpa using ih hr)

theorem pyPartitionCh_split (c : Char) (key rest : List Char) (hkey : ∀ a ∈ key, a ≠ c) :
    pyPartitionCh c (key ++ (c :: rest)) = (key, rest) := by
  induction key with
  | nil => simp [pyPartitionCh]
  | cons a k ih =>
    have ha : (a == c) = false := beq_eq_false_iff_ne.mpr (hkey a (List.mem_cons_self a k))
    rw [List.cons_append]
    simp only [pyPartitionCh, ha, if_false, Bool.false_eq_true]
    rw [ih (fun x hx => hkey x (List.mem_cons_of_mem a hx))]

/- ### Split lemmas -/

theorem isPrefixOf_self_append {α : Type} [DecidableEq α] (l t : List α) :
    l.isPrefixOf (l ++ t) = true := by
  rw [isPrefixOf_eq_true_iff]
  exact List.prefix_append l t

theorem suffix_cons_cases {α : Type} (m₂ : List α) (a : α) (l : List α) (h : m₂ <:+ a :: l) :
    m₂ = a :: l ∨ m₂ <:+ l := by
  obtain ⟨t, ht⟩ := h
  cases t with
  | nil => left; simpa using ht
  | cons x t' =>
    right
    refine ⟨t', ?_⟩
    have hx : x :: (t' ++ m₂) = a :: l := by simpa using ht
    exact (List.cons.injEq _ _ _ _ ▸ hx) |>.2

theorem suffix_append_cases {α : Type} (A B m₂ : List α) (h : m₂ <:+ A ++ B) :
    m₂ <:+ B ∨ ∃ a₂, a₂ <:+ A ∧ m₂ = a₂ ++ B := by
  induction A with
  | nil => left; simpa using h
  | cons a A' ih =>
    rw [List.cons_append] at h
    rcases suffix_cons_cases m₂ a (A' ++ B) h with he | hr
    · right; exact ⟨a :: A', List.suffix_rfl, by simpa using he⟩
    · rcases ih hr with h1 | ⟨a₂, ha₂, he⟩
      · left; exact h1
      · right; exact ⟨a₂, ha₂.trans (List.suffix_cons a A'), he⟩

theorem splitSepAux_fuel (sep : List Char) (hsep : sep ≠ []) :
    ∀ (f1 : Nat) (l : List Char) (f2 : Nat), l.length ≤ f1 → l.length ≤ f2 →
      splitSepAux sep f1 l = splitSepAux sep f2 l := by
  have hsl : 1 ≤ sep.length := by
    cases sep with
    | nil => simp at hsep
    | cons a b => simp
  intro f1
  induction f1 with
  | zero =>
    intro l f2 h1 h2
    have hl : l = [] := List.length_eq_zero.mp (by omega)
    subst hl
    cases f2 <;> rfl
  | succ g ih =>
    intro l f2 h1 h2
    cases l with
    | nil => cases f2 <;> rfl
    | cons c rest =>
      cases f2 with
      | zero => simp at h2
      | succ g2 =>
        cases hp : sep.isPrefixOf (c :: rest) with
        | true =>
          simp only [splitSepAux, hp, if_true]
          congr 1
          apply ih
          · simp only [List.length_drop, List.length_cons] at h1 h2 ⊢
            omega
          · simp only [List.length_drop, List.length_cons] at h1 h2 ⊢
            omega
        | false =>
          simp only [splitSepAux, hp, if_false, Bool.false_eq_true]
          congr 1
          apply ih
          · simp only [List.length_cons] at h1
            omega
          · simp only [List.length_cons] at h2
            omega

theorem splitL_cons_sep (sep r : List Char) (hsep : sep ≠ []) :
    splitL sep (sep ++ r) = [] :: splitL sep r := by
  obtain ⟨s0, sep', hdec⟩ : ∃ s0 sep', sep = s0 :: sep' := by
    cases sep with
    | nil => simp at hsep
    | cons a b => exact ⟨a, b, rfl⟩
  subst hdec
  have hpre : (s0 :: sep').isPrefixOf (s0 :: (sep' ++ r)) = true := by
    rw [show s0 :: (sep' ++ r) = (s0 :: sep') ++ r from rfl]
    exact isPrefixOf_self_append _ _
  show splitSepAux (s0 :: sep') ((s0 :: sep') ++ r).length ((s0 :: sep') ++ r) = _
  rw [show (s0 :: sep') ++ r = s0 :: (sep' ++ r) from rfl]
  rw [show (s0 :: (sep' ++ r)).length = (sep' ++ r).length + 1 from rfl]
  simp only [splitSepAux, hpre, if_true]
  congr 1
  rw [show List.drop (s0 :: sep').length (s0 :: (sep' ++ r)) =
        List.drop (s0 :: sep').length ((s0 :: sep') ++ r) from rfl,
      List.drop_left]
  apply splitSepAux_fuel _ (by simp)
  · simp only [List.length_append]
    omega
  · exact le_rfl

theorem splitL_cons_nomatch (sep : List Char) (c : Char) (rest : List Char)
    (h : sep.isPrefixOf (c :: rest) = false) :
    splitL sep (c :: rest) = List.modifyHead (c :: ·) (splitL sep rest) := by
  show splitSepAux sep (rest.length + 1) (c :: rest) = _
  simp only [splitSepAux, h, if_false, Bool.false_eq_true]
  rfl

theorem splitL_first_chunk (sep m t : List Char) (hsep : sep ≠ [])
    (H : ∀ m₂, m₂ <:+ m → m₂ ≠ [] → sep.isPrefixOf (m₂ ++ (sep ++ t)) = false) :
    splitL sep (m ++ (sep ++ t)) = m :: splitL sep t := by
  induction m with
  | nil => simpa using splitL_cons_sep sep t hsep
  | cons c m' ih =>
    have h1 : sep.isPrefixOf ((c :: m') ++ (sep ++ t)) = false :=
      H (c :: m') List.suffix_rfl (by simp)
    rw [List.cons_append]
    rw [splitL_cons_nomatch sep c (m' ++ (sep ++ t)) (by rw [← List.cons_append]; exact h1)]
    rw [ih (fun m₂ hs hne => H m₂ (hs.trans (List.suffix_cons c m')) hne)]
    rfl

theorem splitL_no_occ (sep l : List Char) (H : ∀ m₂, m₂ <:+ l → m₂ ≠ [] →
    sep.isPrefixOf m₂ = false) : splitL sep l = [l] := by
  induction l with
  | nil => rfl
  | cons c rest ih =>
    have h1 := H (c :: rest) List.suffix_rfl (by simp)
    rw [splitL_cons_nomatch sep c rest h1]
    rw [ih (fun m₂ hs hne => H m₂ (hs.trans (List.suffix_cons c rest)) hne)]
    rfl

/- ### Occurrences of "---" -/

/-- The `"---"` frontmatter delimiter. -/
def dash3 : List Char := ['-', '-', '-']

/-- Python `pat in s` for the patterns used here (scan of every suffix). -/
def hasSub (pat : List Char) : List Char → Bool
  | [] => pat.isEmpty
  | c :: r => pat.isPrefixOf (c :: r) || hasSub pat r

theorem hasSub_of_suffix (pat l m₂ : List Char) (hs : m₂ <:+ l)
    (hp : pat.isPrefixOf m₂ = true) : hasSub pat l = true := by
  induction l with
  | nil =>
    have hm : m₂ = [] := List.suffix_nil.mp hs
    subst hm
    cases pat with
    | nil => rfl
    | cons a b => simp [List.isPrefixOf] at hp
  | cons c r ih =>
    rcases suffix_cons_cases m₂ c r hs with he | hr
    · subst he
      simp [hasSub, hp]
    · simp [hasSub, ih hr]

/-- `SafeT l t`: no non-empty suffix of `l`, continued by `t`, starts
with the `"---"` delimiter.  This is the hypothesis the first-chunk split
lemma needs about the text in front of a delimiter. -/
def SafeT (l t : List Char) : Prop :=
  ∀ m₂, m₂ <:+ l → m₂ ≠ [] → dash3.isPrefixOf (m₂ ++ t) = false

theorem safeT_nil (t : List Char) : SafeT [] t := by
  intro m₂ hs hne
  exact absurd (List.suffix_nil.mp hs) hne

theorem safeT_cons (a : Char) (l t : List Char) (ha : a ≠ '-') (h : SafeT l t) :
    SafeT (a :: l) t := by
  intro m₂ hs hne
  rcases suffix_cons_cases m₂ a l hs with he | hr
  · subst he
    show dash3.isPrefixOf (a :: (l ++ t)) = false
    simp [dash3, List.isPrefixOf, beq_eq_false_iff_ne.mpr (Ne.symm ha)]
  · exact h m₂ hr hne

theorem safeT_append (A B t : List Char) (hA : SafeT A (B ++ t)) (hB : SafeT B t) :
    SafeT (A ++ B) t := by
  intro m₂ hs hne
  rcases suffix_append_cases A B m₂ hs with hr | ⟨a₂, ha₂, he⟩
  · exact hB m₂ hr hne
  · subst he
    by_cases hae : a₂ = []
    · subst hae
      simp only [List.nil_append] at hne ⊢
      exact hB B List.suffix_rfl hne
    · rw [List.append_assoc]
      exact hA a₂ ha₂ hae

theorem safeT_nodash (A t : List Char) (h : ∀ c ∈ A, c ≠ '-') : SafeT A t := by
  intro m₂ hs hne
  cases m₂ with
  | nil => exact absurd rfl hne
  | cons c r =>
    have hc : c ∈ A := hs.subset (List.mem_cons_self c r)
    show dash3.isPrefixOf (c :: (r ++ t)) = false
    simp [dash3, List.isPrefixOf, beq_eq_false_iff_ne.mpr (Ne.symm (h c hc))]

theorem safeT_value (v t : List Char) (hv : hasSub dash3 v = false)
    (ht : ∀ r, t ≠ '-' :: r) : SafeT v t := by
  intro m₂ hs hne
  cases m₂ with
  | nil => exact absurd rfl hne
  | cons a m₃ =>
    by_cases ha : a = '-'
    · subst ha
      cases m₃ with
      | nil =>
        show dash3.isPrefixOf ('-' :: ([] ++ t)) = false
        simp only [List.nil_append]
        cases t with
        | nil => decide
        | cons x t' =>
          have hx : x ≠ '-' := fun he => ht t' (by rw [he])
          show dash3.isPrefixOf ('-' :: x :: t') = false
          simp [dash3, List.isPrefixOf, beq_eq_false_iff_ne.mpr (Ne.symm hx)]
      | cons b m₄ =>
        by_cases hb : b = '-'
        · subst hb
          cases m₄ with
          | nil =>
            show dash3.isPrefixOf ('-' :: '-' :: ([] ++ t)) = false
            simp only [List.nil_append]
            cases t with
            | nil => decide
            | cons x t' =>
              have hx : x ≠ '-' := fun he => ht t' (by rw [he])
              show dash3.isPrefixOf ('-' :: '-' :: x :: t') = false
              simp [dash3, List.isPrefixOf, beq_eq_false_iff_ne.mpr (Ne.symm hx)]
          | cons c3 m₅ =>
            by_cases hc3 : c3 = '-'
            · subst hc3
              have habs : hasSub dash3 v = true :=
                hasSub_of_suffix dash3 v _ hs (by simp [dash3, List.isPrefixOf])
              rw [hv] at habs
              cases habs
            · show dash3.isPrefixOf ('-' :: '-' :: c3 :: (m₅ ++ t)) = false
              simp [dash3, List.isPrefixOf, beq_eq_false_iff_ne.mpr (Ne.symm hc3)]
        · show dash3.isPrefixOf ('-' :: b :: (m₄ ++ t)) = false
          simp [dash3, List.isPrefixOf, beq_eq_false_iff_ne.mpr (Ne.symm hb)]
    · show dash3.isPrefixOf (a :: (m₃ ++ t)) = false
      simp [dash3, List.isPrefixOf, beq_eq_false_iff_ne.mpr (Ne.symm ha)]

/-- Single-character separator: any list avoiding the character is safe
in front of it. -/
theorem safe1_of_not_mem (c : Char) (l t : List Char) (h : c ∉ l) :
    ∀ m₂, m₂ <:+ l → m₂ ≠ [] → [c].isPrefixOf (m₂ ++ t) = false := by
  intro m₂ hs hne
  cases m₂ with
  | nil => exact absurd rfl hne
  | cons a r =>
    have ha : a ∈ l := hs.subset (List.mem_cons_self a r)
    have : a ≠ c := fun he => h (he ▸ ha)
    show [c].isPrefixOf (a :: (r ++ t)) = false
    simp [List.isPrefixOf, beq_eq_false_iff_ne.mpr (Ne.symm this)]

/- ### Credential store (oauth-server.py `save_settings`, linkedin-api.py `load_settings`) -/

/-- One quoted frontmatter line `key: "value"` as written by
`save_settings` (without the trailing newline). -/
def lineQ (key v : String) : List Char :=
  key.data ++ (':' :: (' ' :: (dqCh :: (v.data ++ [dqCh]))))

/-- The unquoted expiry line `token_expires_at: <int>` as written by
`save_settings` (without the trailing newline). -/
def lineE (key : String) (ea : Int) : List Char :=
  key.data ++ (':' :: (' ' :: (intRepr ea).data))

/-- The six frontmatter lines of the settings file, newline-separated
(the text strictly between `---\n` and the final `\n---`). -/
def fmInner (cid cs at_ pu dn : String) (ea : Int) : List Char :=
  lineQ "client_id" cid ++ ('\n' :: (lineQ "client_secret" cs ++ ('\n' ::
  (lineQ "access_token" at_ ++ ('\n' :: (lineQ "person_urn" pu ++ ('\n' ::
  (lineQ "display_name" dn ++ ('\n' :: lineE "token_expires_at" ea)))))))))

/-- The human-readable notes after the closing delimiter of the
frontmatter (`timeStr` models the `time.strftime` rendering of the
expiry). -/
def save_tail (dn pu ts : String) : List Char :=
  "\n\n# LinkedIn Plugin Settings\n\nAuthenticated as **".data ++ (dn.data ++
  ("** (".data ++ (pu.data ++ (").\n\nToken expires at: ".data ++ (ts.data ++
  "\n\nTo re-authenticate, run `/linkedin:setup` again.\n".data)))))

/-- `save_settings` (oauth-server.py lines 71–95): the exact file content
written — `---`, newline, the six `key: "value"` / expiry lines, newline,
`---`, then the free-form notes.  `now` models `int(time.time())`, so the
absolute expiry is `now + expires_in` as in the source. -/
def save_settings (client_id client_secret access_token person_urn display_name : String)
    (now expires_in : Int) (timeStr : String) : String :=
  ⟨dash3 ++ ('\n' :: (fmInner client_id client_secret access_token person_urn display_name
      (now + expires_in) ++ ('\n' :: (dash3 ++ save_tail display_name person_urn timeStr))))⟩

/-- The settings dictionary (Python `dict`, insertion-ordered; a later
write to the same key wins, hence lookup scans from the end). -/
abbrev PyDict := List (String × String)

/-- `settings[key] = value`. -/
def dictSet (d : PyDict) (k v : String) : PyDict := d ++ [(k, v)]

/-- `settings.get(key)` (last write wins, as in a Python dict). -/
def dictFind? (d : PyDict) (k : String) : Option String :=
  (d.reverse.find? (fun kv => kv.1 == k)).map (·.2)

/-- One iteration of the frontmatter parsing loop of `load_settings`
(linkedin-api.py lines 50–55): strip the line, skip it unless it contains
a colon, otherwise split at the first colon and record
`key.strip() ↦ value.strip().strip(quote).strip(squote)`. -/
def parseLine (d : PyDict) (rawLine : String) : PyDict :=
  if pyContainsCh ':' (pyStrip rawLine) then
    dictSet d (pyStrip (pyPartition ':' (pyStrip rawLine)).1)
      (pyStripCh sqCh (pyStripCh dqCh (pyStrip (pyPartition ':' (pyStrip rawLine)).2)))
  else d

/-- The frontmatter parsing of `load_settings` (lines 48–55):
`content.split("---")[1].strip().split("\n")` folded through
`parseLine`. -/
def parseFrontmatter (fm : String) : PyDict :=
  (pySplit "\n" (pyStrip fm)).foldl parseLine []

/-- The distinct failure modes of `load_settings` (each printed with its
own message and followed by `sys.exit(1)`); `valueError` models `int()`
raising on a malformed `token_expires_at`. -/
inductive LoadError where
  | settingsNotFound
  | invalidFormat
  | missingAccessToken
  | missingPersonUrn
  | valueError
  | tokenExpired
deriving DecidableEq, Repr

/-- `int(settings.get("token_expires_at", 0))` (line 65). -/
def storedExpiry? (settings : PyDict) : Option Int :=
  match dictFind? settings "token_expires_at" with
  | none => some 0
  | some s => pyIntParse? s

/-- `load_settings` (linkedin-api.py lines 36–71).  `fileExists` models
`SETTINGS_PATH.exists()`, `content` the file text, `now` the clock
(`time.time()`).  The `[1]` index into `content.split("---")` is total
here (`getD`) because the preceding `startswith("---")` check guarantees
at least two split pieces. -/
def load_settings (fileExists : Bool) (content : String) (now : Int) :
    Except LoadError PyDict :=
  if !fileExists then .error .settingsNotFound
  else if !(pyStartsWith content "---") then .error .invalidFormat
  else
    match dictFind? (parseFrontmatter ((pySplit "---" content).getD 1 "")) "access_token" with
    | none => .error .missingAccessToken
    | some v =>
      if v == "" then .error .missingAccessToken
      else
        match dictFind? (parseFrontmatter ((pySplit "---" content).getD 1 "")) "person_urn" with
        | none => .error .missingPersonUrn
        | some v2 =>
          if v2 == "" then .error .missingPersonUrn
          else
            match storedExpiry? (parseFrontmatter ((pySplit "---" content).getD 1 "")) with
            | none => .error .valueError
            | some expires_at =>
              if expires_at ≠ 0 ∧ now > expires_at then .error .tokenExpired
              else .ok (parseFrontmatter ((pySplit "---" content).getD 1 ""))

/-- A value is storage-safe for the frontmatter round-trip: no newline,
no `---` substring, and it neither begins nor ends with a double or
single quote (such characters would be consumed by the `strip` chain of
the parser). -/
def goodVal (v : String) : Bool :=
  !(v.data.contains '\n') && (!(hasSub dash3 v.data) &&
  ((match v.data.head? with
    | none => true
    | some c => !(c == dqCh) && !(c == sqCh)) &&
   (match v.data.getLast? with
    | none => true
    | some d => !(d == dqCh) && !(d == sqCh))))

theorem goodVal_not_nl (v : String) (h : goodVal v = true) : '\n' ∉ v.data := by
  unfold goodVal at h
  simp only [Bool.and_eq_true, Bool.not_eq_true'] at h
  intro hm
  rw [contains_of_mem _ _ hm] at h
  cases h.1

theorem goodVal_noDash3 (v : String) (h : goodVal v = true) : hasSub dash3 v.data = false := by
  unfold goodVal at h
  simp only [Bool.and_eq_true, Bool.not_eq_true'] at h
  exact h.2.1

theorem goodVal_head (v : String) (h : goodVal v = true) :
    ∀ c r, v.data = c :: r → c ≠ dqCh ∧ c ≠ sqCh := by
  intro c r hcr
  unfold goodVal at h
  simp only [Bool.and_eq_true] at h
  have := h.2.2.1
  rw [hcr] at this
  simp only [List.head?_cons, Bool.and_eq_true, Bool.not_eq_true'] at this
  exact ⟨beq_eq_false_iff_ne.mp this.1, beq_eq_false_iff_ne.mp this.2⟩

theorem goodVal_last (v : String) (h : goodVal v = true) :
    ∀ pre d, v.data = pre ++ [d] → d ≠ dqCh ∧ d ≠ sqCh := by
  intro pre d hpd
  unfold goodVal at h
  simp only [Bool.and_eq_true] at h
  have := h.2.2.2
  rw [hpd] at this
  simp only [List.getLast?_concat, Bool.and_eq_true, Bool.not_eq_true'] at this
  exact ⟨beq_eq_false_iff_ne.mp this.1, beq_eq_false_iff_ne.mp this.2⟩

theorem isPyWs_of_digit (c : Char) (h : c.isDigit = true) : isPyWs c = false := by
  unfold isPyWs
  rw [beq_eq_false_iff_ne.mpr (digit_ne_of_not_digit c ' ' h (by decide)),
    beq_eq_false_iff_ne.mpr (digit_ne_of_not_digit c '\t' h (by decide)),
    beq_eq_false_iff_ne.mpr (digit_ne_of_not_digit c '\n' h (by decide)),
    beq_eq_false_iff_ne.mpr (digit_ne_of_not_digit c '\r' h (by decide)),
    beq_eq_false_iff_ne.mpr (digit_ne_of_not_digit c '\x0b' h (by decide)),
    beq_eq_false_iff_ne.mpr (digit_ne_of_not_digit c '\x0c' h (by decide))]
  rfl

theorem hasSub_dash3_digits (l : List Char) (h : ∀ c ∈ l, c.isDigit = true) :
    hasSub dash3 l = false := by
  induction l with
  | nil => rfl
  | cons c r ih =>
    have hc : c ≠ '-' := digit_ne_of_not_digit c '-' (h c (List.mem_cons_self c r)) (by decide)
    show (dash3.isPrefixOf (c :: r) || hasSub dash3 r) = false
    rw [ih (fun x hx => h x (List.mem_cons_of_mem _ hx))]
    simp [dash3, List.isPrefixOf, beq_eq_false_iff_ne.mpr (Ne.symm hc)]

theorem hasSub_dash3_intRepr (i : Int) : hasSub dash3 (intRepr i).data = false := by
  by_cases hi : i < 0
  · have hrep : (intRepr i).data = '-' :: (natRepr i.natAbs).data := by
      simp [intRepr, if_pos hi, String.data_append]
    rw [hrep]
    show (dash3.isPrefixOf ('-' :: (natRepr i.natAbs).data) ||
      hasSub dash3 (natRepr i.natAbs).data) = false
    rw [hasSub_dash3_digits _ (natRepr_digits _)]
    simp only [Bool.or_false]
    obtain ⟨c, r, hcr, hcd⟩ := natRepr_head_digit i.natAbs
    rw [hcr]
    have hc : c ≠ '-' := digit_ne_of_not_digit c '-' hcd (by decide)
    simp [dash3, List.isPrefixOf, beq_eq_false_iff_ne.mpr (Ne.symm hc)]
  · have hrep : (intRepr i).data = (natRepr i.toNat).data := by
      simp [intRepr, if_neg hi]
    rw [hrep]
    exact hasSub_dash3_digits _ (natRepr_digits _)

theorem intRepr_last_digit (i : Int) :
    ∃ pre d, (intRepr i).data = pre ++ [d] ∧ d.isDigit = true := by
  by_cases hi : i < 0
  · obtain ⟨pre, d, hpd, hd⟩ := natRepr_last_digit i.natAbs
    refine ⟨'-' :: pre, d, ?_, hd⟩
    simp [intRepr, if_pos hi, String.data_append, hpd]
  · obtain ⟨pre, d, hpd, hd⟩ := natRepr_last_digit i.toNat
    exact ⟨pre, d, by simp [intRepr, if_neg hi, hpd], hd⟩

theorem intRepr_head_nonws (i : Int) :
    ∃ c r, (intRepr i).data = c :: r ∧ isPyWs c = false ∧
      (c == dqCh) = false ∧ (c == sqCh) = false := by
  by_cases hi : i < 0
  · refine ⟨'-', (natRepr i.natAbs).data, ?_, by decide, by decide, by decide⟩
    simp [intRepr, if_pos hi, String.data_append]
  · obtain ⟨c, r, hcr, hcd⟩ := natRepr_head_digit i.toNat
    exact ⟨c, r, by simp [intRepr, if_neg hi, hcr], isPyWs_of_digit c hcd,
      beq_eq_false_iff_ne.mpr (digit_ne_of_not_digit c dqCh hcd (by decide)),
      beq_eq_false_iff_ne.mpr (digit_ne_of_not_digit c sqCh hcd (by decide))⟩

theorem intRepr_no_nl (i : Int) : '\n' ∉ (intRepr i).data := by
  intro h
  by_cases hi : i < 0
  · rw [show (intRepr i).data = '-' :: (natRepr i.natAbs).data from by
      simp [intRepr, if_pos hi, String.data_append]] at h
    rcases List.mem_cons.mp h with he | hr
    · exact absurd he (by decide)
    · exact absurd (natRepr_digits _ _ hr) (by decide)
  · rw [show (intRepr i).data = (natRepr i.toNat).data from by
      simp [intRepr, if_neg hi]] at h
    exact absurd (natRepr_digits _ _ h) (by decide)

/- ### Per-line parsing lemmas -/

theorem parseLine_quoted (d : PyDict) (key v : String)
    (hkey_ne : key.data ≠ [])
    (hkey : ∀ a ∈ key.data, a ≠ ':' ∧ isPyWs a = false)
    (hv : goodVal v = true) :
    parseLine d ⟨lineQ key v⟩ = dictSet d key v := by
  obtain ⟨k0, kr, hk⟩ : ∃ k0 kr, key.data = k0 :: kr := by
    cases hkd : key.data with
    | nil => exact absurd hkd hkey_ne
    | cons a b => exact ⟨a, b, rfl⟩
  have hstrip : pyStrip ⟨lineQ key v⟩ = ⟨lineQ key v⟩ := by
    show (⟨stripList isPyWs (lineQ key v)⟩ : String) = _
    congr 1
    apply stripList_id
    · intro c r hcr
      rw [show lineQ key v = k0 :: (kr ++ (':' :: (' ' :: (dqCh :: (v.data ++ [dqCh])))))
          from by simp [lineQ, hk]] at hcr
      injection hcr with h1 _
      subst h1
      exact (hkey k0 (by rw [hk]; exact List.mem_cons_self _ _)).2
    · intro pre dd hpd
      rw [show lineQ key v = (key.data ++ (':' :: (' ' :: (dqCh :: v.data)))) ++ [dqCh]
          from by simp [lineQ]] at hpd
      rw [← last_eq_of_concat _ _ _ _ hpd]
      decide
  have hcont : pyContainsCh ':' ⟨lineQ key v⟩ = true := by
    apply contains_of_mem
    show ':' ∈ key.data ++ (':' :: _)
    exact List.mem_append.mpr (Or.inr (List.mem_cons_self _ _))
  have hpart : pyPartitionCh ':' (lineQ key v) =
      (key.data, ' ' :: (dqCh :: (v.data ++ [dqCh]))) :=
    pyPartitionCh_split ':' key.data _ (fun a ha => (hkey a ha).1)
  have hkeystrip : pyStrip ⟨key.data⟩ = key := by
    show (⟨stripList isPyWs key.data⟩ : String) = key
    have : stripList isPyWs key.data = key.data := by
      apply stripList_id
      · intro c r hcr
        exact (hkey c (by rw [hcr]; exact List.mem_cons_self _ _)).2
      · intro pre dd hpd
        exact (hkey dd (by rw [hpd]; simp)).2
    rw [this]
  have hvalstrip : pyStrip ⟨' ' :: (dqCh :: (v.data ++ [dqCh]))⟩ =
      ⟨dqCh :: (v.data ++ [dqCh])⟩ := by
    show (⟨stripList isPyWs (' ' :: (dqCh :: (v.data ++ [dqCh])))⟩ : String) = _
    congr 1
    apply stripList_drop_one isPyWs ' ' _ (by decide)
    · intro c r hcr
      injection hcr with h1 _
      subst h1
      decide
    · intro pre dd hpd
      rw [show dqCh :: (v.data ++ [dqCh]) = (dqCh :: v.data) ++ [dqCh] from rfl] at hpd
      rw [← last_eq_of_concat _ _ _ _ hpd]
      decide
  have hdq : pyStripCh dqCh ⟨dqCh :: (v.data ++ [dqCh])⟩ = ⟨v.data⟩ := by
    show (⟨stripList (· == dqCh) (dqCh :: (v.data ++ [dqCh]))⟩ : String) = _
    congr 1
    exact stripQuote dqCh v.data
      (fun c r hcr => (goodVal_head v hv c r hcr).1)
      (fun pre dd hpd => (goodVal_last v hv pre dd hpd).1)
  have hsq : pyStripCh sqCh ⟨v.data⟩ = v := by
    show (⟨stripList (· == sqCh) v.data⟩ : String) = v
    have : stripList (· == sqCh) v.data = v.data := by
      apply stripList_id
      · intro c r hcr
        exact beq_eq_false_iff_ne.mpr (goodVal_head v hv c r hcr).2
      · intro pre dd hpd
        exact beq_eq_false_iff_ne.mpr (goodVal_last v hv pre dd hpd).2
    rw [this]
  unfold parseLine
  rw [hstrip, hcont, if_pos rfl]
  rw [show pyPartition ':' ⟨lineQ key v⟩ =
      (⟨key.data⟩, ⟨' ' :: (dqCh :: (v.data ++ [dqCh]))⟩) from by
    unfold pyPartition
    rw [show (⟨lineQ key v⟩ : String).data = lineQ key v from rfl, hpart]]
  rw [hkeystrip]
  show dictSet d key (pyStripCh sqCh (pyStripCh dqCh (pyStrip ⟨' ' :: (dqCh :: (v.data ++ [dqCh]))⟩))) = _
  rw [hvalstrip, hdq, hsq]

theorem parseLine_expiry (d : PyDict) (key : String) (ea : Int)
    (hkey_ne : key.data ≠ [])
    (hkey : ∀ a ∈ key.data, a ≠ ':' ∧ isPyWs a = false) :
    parseLine d ⟨lineE key ea⟩ = dictSet d key (intRepr ea) := by
  obtain ⟨k0, kr, hk⟩ : ∃ k0 kr, key.data = k0 :: kr := by
    cases hkd : key.data with
    | nil => exact absurd hkd hkey_ne
    | cons a b => exact ⟨a, b, rfl⟩
  obtain ⟨epre, ed, hed, hedd⟩ := intRepr_last_digit ea
  obtain ⟨ec, er, hec, hecw, hecdq, hecsq⟩ := intRepr_head_nonws ea
  have hstrip : pyStrip ⟨lineE key ea⟩ = ⟨lineE key ea⟩ := by
    show (⟨stripList isPyWs (lineE key ea)⟩ : String) = _
    congr 1
    apply stripList_id
    · intro c r hcr
      rw [show lineE key ea = k0 :: (kr ++ (':' :: (' ' :: (intRepr ea).data)))
          from by simp [lineE, hk]] at hcr
      injection hcr with h1 _
      subst h1
      exact (hkey k0 (by rw [hk]; exact List.mem_cons_self _ _)).2
    · intro pre dd hpd
      rw [show lineE key ea = (key.data ++ (':' :: (' ' :: epre))) ++ [ed]
          from by simp [lineE, hed]] at hpd
      rw [← last_eq_of_concat _ _ _ _ hpd]
      exact isPyWs_of_digit ed hedd
  have hcont : pyContainsCh ':' ⟨lineE key ea⟩ = true := by
    apply contains_of_mem
    show ':' ∈ key.data ++ (':' :: _)
    exact List.mem_append.mpr (Or.inr (List.mem_cons_self _ _))
  have hpart : pyPartitionCh ':' (lineE key ea) = (key.data, ' ' :: (intRepr ea).data) :=
    pyPartitionCh_split ':' key.data _ (fun a ha => (hkey a ha).1)
  have hkeystrip : pyStrip ⟨key.data⟩ = key := by
    show (⟨stripList isPyWs key.data⟩ : String) = key
    have : stripList isPyWs key.data = key.data := by
      apply stripList_id
      · intro c r hcr
        exact (hkey c (by rw [hcr]; exact List.mem_cons_self _ _)).2
      · intro pre dd hpd
        exact (hkey dd (by rw [hpd]; simp)).2
    rw [this]
  have hvalstrip : pyStrip ⟨' ' :: (intRepr ea).data⟩ = intRepr ea := by
    show (⟨stripList isPyWs (' ' :: (intRepr ea).data)⟩ : String) = _
    have : stripList isPyWs (' ' :: (intRepr ea).data) = (intRepr ea).data := by
      apply stripList_drop_one isPyWs ' ' _ (by decide)
      · intro c r hcr
        rw [hec] at hcr
        injection hcr with h1 _
        subst h1
        exact hecw
      · intro pre dd hpd
        rw [hed] at hpd
        rw [← last_eq_of_concat _ _ _ _ hpd]
        exact isPyWs_of_digit ed hedd
    rw [this]
  have hdq : pyStripCh dqCh (intRepr ea) = intRepr ea := by
    show (⟨stripList (· == dqCh) (intRepr ea).data⟩ : String) = _
    have : stripList (· == dqCh) (intRepr ea).data = (intRepr ea).data := by
      apply stripList_id
      · intro c r hcr
        rw [hec] at hcr
        injection hcr with h1 _
        subst h1
        exact hecdq
      · intro pre dd hpd
        rw [hed] at hpd
        rw [← last_eq_of_concat _ _ _ _ hpd]
        exact beq_eq_false_iff_ne.mpr (digit_ne_of_not_digit ed dqCh hedd (by decide))
    rw [this]
  have hsq : pyStripCh sqCh (intRepr ea) = intRepr ea := by
    show (⟨stripList (· == sqCh) (intRepr ea).data⟩ : String) = _
    have : stripList (· == sqCh) (intRepr ea).data = (intRepr ea).data := by
      apply stripList_id
      · intro c r hcr
        rw [hec] at hcr
        injection hcr with h1 _
        subst h1
        exact hecsq
      · intro pre dd hpd
        rw [hed] at hpd
        rw [← last_eq_of_concat _ _ _ _ hpd]
        exact beq_eq_false_iff_ne.mpr (digit_ne_of_not_digit ed sqCh hedd (by decide))
    rw [this]
  unfold parseLine
  rw [hstrip, hcont, if_pos rfl]
  rw [show pyPartition ':' ⟨lineE key ea⟩ = (⟨key.data⟩, ⟨' ' :: (intRepr ea).data⟩) from by
    unfold pyPartition
    rw [show (⟨lineE key ea⟩ : String).data = lineE key ea from rfl, hpart]]
  rw [hkeystrip]
  show dictSet d key (pyStripCh sqCh (pyStripCh dqCh (pyStrip ⟨' ' :: (intRepr ea).data⟩))) = _
  rw [hvalstrip, hdq, hsq]

/- ### Dash-safety of the frontmatter -/

theorem safeT_lineQ (key v : String) (t₂ : List Char)
    (hk : ∀ c ∈ key.data, c ≠ '-') (hv : hasSub dash3 v.data = false) :
    SafeT (lineQ key v) t₂ := by
  unfold lineQ
  apply safeT_append _ _ _ (safeT_nodash _ _ hk)
  apply safeT_cons _ _ _ (by decide)
  apply safeT_cons _ _ _ (by decide)
  apply safeT_cons _ _ _ (by decide)
  apply safeT_append _ _ _ ?_ (safeT_nodash _ _ (by decide))
  apply safeT_value _ _ hv
  intro r he
  rw [show ([dqCh] ++ t₂) = dqCh :: t₂ from rfl] at he
  injection he with h1 _
  exact absurd h1 (by decide)

theorem safeT_lineE (key : String) (ea : Int) (t₂ : List Char)
    (hk : ∀ c ∈ key.data, c ≠ '-') (ht₂ : ∀ r, t₂ ≠ '-' :: r) :
    SafeT (lineE key ea) t₂ := by
  unfold lineE
  apply safeT_append _ _ _ (safeT_nodash _ _ hk)
  apply safeT_cons _ _ _ (by decide)
  apply safeT_cons _ _ _ (by decide)
  exact safeT_value _ _ (hasSub_dash3_intRepr ea) ht₂

/- ### Assembling the saved file and parsing it back -/

theorem concat_decomp_append {α : Type} (A B pre : List α) (d : α) (h : B = pre ++ [d]) :
    A ++ B = (A ++ pre) ++ [d] := by
  rw [h, List.append_assoc]

theorem fmInner_head (cid cs at_ pu dn : String) (ea : Int) :
    ∃ r, fmInner cid cs at_ pu dn ea = 'c' :: r :=
  ⟨_, rfl⟩

theorem fmInner_last (cid cs at_ pu dn : String) (ea : Int) :
    ∃ pre d, fmInner cid cs at_ pu dn ea = pre ++ [d] ∧ d.isDigit = true := by
  obtain ⟨epre, ed, hed, hedd⟩ := intRepr_last_digit ea
  refine ⟨lineQ "client_id" cid ++ ('\n' :: (lineQ "client_secret" cs ++ ('\n' ::
    (lineQ "access_token" at_ ++ ('\n' :: (lineQ "person_urn" pu ++ ('\n' ::
    (lineQ "display_name" dn ++ ('\n' :: ("token_expires_at".data ++
      (':' :: (' ' :: epre)))))))))))), ed, ?_, hedd⟩
  simp [fmInner, lineE, hed, List.append_assoc]

/-- The whole middle block of the saved file (newline, the six lines,
newline) is safe in front of the closing `---`. -/
theorem safeT_block (cid cs at_ pu dn : String) (ea : Int) (T : List Char)
    (h1 : hasSub dash3 cid.data = false) (h2 : hasSub dash3 cs.data = false)
    (h3 : hasSub dash3 at_.data = false) (h4 : hasSub dash3 pu.data = false)
    (h5 : hasSub dash3 dn.data = false) :
    SafeT ('\n' :: (fmInner cid cs at_ pu dn ea ++ ['\n'])) (dash3 ++ T) := by
  apply safeT_cons _ _ _ (by decide)
  apply safeT_append
  · unfold fmInner
    apply safeT_append _ _ _ (safeT_lineQ _ _ _ (by decide) h1)
    apply safeT_cons _ _ _ (by decide)
    apply safeT_append _ _ _ (safeT_lineQ _ _ _ (by decide) h2)
    apply safeT_cons _ _ _ (by decide)
    apply safeT_append _ _ _ (safeT_lineQ _ _ _ (by decide) h3)
    apply safeT_cons _ _ _ (by decide)
    apply safeT_append _ _ _ (safeT_lineQ _ _ _ (by decide) h4)
    apply safeT_cons _ _ _ (by decide)
    apply safeT_append _ _ _ (safeT_lineQ _ _ _ (by decide) h5)
    apply safeT_cons _ _ _ (by decide)
    apply safeT_lineE _ _ _ (by decide)
    intro r he
    rw [show (['\n'] ++ (dash3 ++ T)) = '\n' :: (dash3 ++ T) from rfl] at he
    injection he with hx _
    exact absurd hx (by decide)
  · exact safeT_nodash _ _ (by decide)

/-- `content.split("---")[1]` on a saved file is the middle block. -/
theorem save_split (cid cs at_ pu dn ts : String) (now ei : Int)
    (h1 : hasSub dash3 cid.data = false) (h2 : hasSub dash3 cs.data = false)
    (h3 : hasSub dash3 at_.data = false) (h4 : hasSub dash3 pu.data = false)
    (h5 : hasSub dash3 dn.data = false) :
    (pySplit "---" (save_settings cid cs at_ pu dn now ei ts)).getD 1 "" =
      ⟨'\n' :: (fmInner cid cs at_ pu dn (now + ei) ++ ['\n'])⟩ := by
  unfold pySplit
  have hdata : (save_settings cid cs at_ pu dn now ei ts).data =
      dash3 ++ (('\n' :: (fmInner cid cs at_ pu dn (now + ei) ++ ['\n'])) ++
        (dash3 ++ save_tail dn pu ts)) := by
    show dash3 ++ ('\n' :: (fmInner cid cs at_ pu dn (now + ei) ++
        ('\n' :: (dash3 ++ save_tail dn pu ts)))) = _
    simp [List.append_assoc]
  rw [hdata]
  rw [show ("---" : String).data = dash3 from rfl]
  rw [splitL_cons_sep dash3 _ (by decide)]
  rw [splitL_first_chunk dash3 _ _ (by decide)
    (safeT_block cid cs at_ pu dn (now + ei) (save_tail dn pu ts) h1 h2 h3 h4 h5)]
  rfl

/-- Stripping the middle block removes exactly the wrapping newlines. -/
theorem strip_block (cid cs at_ pu dn : String) (ea : Int) :
    pyStrip ⟨'\n' :: (fmInner cid cs at_ pu dn ea ++ ['\n'])⟩ =
      ⟨fmInner cid cs at_ pu dn ea⟩ := by
  show (⟨stripList isPyWs ('\n' :: (fmInner cid cs at_ pu dn ea ++ ['\n']))⟩ : String) = _
  congr 1
  apply stripList_wrap isPyWs '\n' '\n' _ (by decide) (by decide)
  · intro c r hcr
    obtain ⟨rest, hrest⟩ := fmInner_head cid cs at_ pu dn ea
    rw [hrest] at hcr
    injection hcr with hx _
    subst hx
    decide
  · intro pre dd hpd
    obtain ⟨epre, ed, hed, hedd⟩ := fmInner_last cid cs at_ pu dn ea
    rw [hed] at hpd
    rw [← last_eq_of_concat _ _ _ _ hpd]
    exact isPyWs_of_digit ed hedd

theorem nl_not_mem_lineQ (k v : String) (hk : '\n' ∉ k.data) (hv : '\n' ∉ v.data) :
    '\n' ∉ lineQ k v := by
  intro hm
  simp only [lineQ, List.mem_append, List.mem_cons, List.mem_singleton] at hm
  rcases hm with h | h | h | h | h | h
  · exact hk h
  · exact absurd h (by decide)
  · exact absurd h (by decide)
  · exact absurd h (by decide)
  · exact hv h
  · exact absurd h (by decide)

theorem nl_not_mem_lineE (k : String) (ea : Int) (hk : '\n' ∉ k.data) :
    '\n' ∉ lineE k ea := by
  intro hm
  simp only [lineE, List.mem_append, List.mem_cons] at hm
  rcases hm with h | h | h | h
  · exact hk h
  · exact absurd h (by decide)
  · exact absurd h (by decide)
  · exact intRepr_no_nl ea h

theorem split_fmInner (cid cs at_ pu dn : String) (ea : Int)
    (h1 : '\n' ∉ cid.data) (h2 : '\n' ∉ cs.data) (h3 : '\n' ∉ at_.data)
    (h4 : '\n' ∉ pu.data) (h5 : '\n' ∉ dn.data) :
    splitL ['\n'] (fmInner cid cs at_ pu dn ea) =
      [lineQ "client_id" cid, lineQ "client_secret" cs, lineQ "access_token" at_,
       lineQ "person_urn" pu, lineQ "display_name" dn, lineE "token_expires_at" ea] := by
  have q1 := nl_not_mem_lineQ "client_id" cid (by decide) h1
  have q2 := nl_not_mem_lineQ "client_secret" cs (by decide) h2
  have q3 := nl_not_mem_lineQ "access_token" at_ (by decide) h3
  have q4 := nl_not_mem_lineQ "person_urn" pu (by decide) h4
  have q5 := nl_not_mem_lineQ "display_name" dn (by decide) h5
  have q6 := nl_not_mem_lineE "token_expires_at" ea (by decide)
  unfold fmInner
  rw [show ('\n' :: (lineQ "client_secret" cs ++ ('\n' :: (lineQ "access_token" at_ ++
      ('\n' :: (lineQ "person_urn" pu ++ ('\n' :: (lineQ "display_name" dn ++
      ('\n' :: lineE "token_expires_at" ea))))))))) =
    ['\n'] ++ (lineQ "client_secret" cs ++ ('\n' :: (lineQ "access_token" at_ ++
      ('\n' :: (lineQ "person_urn" pu ++ ('\n' :: (lineQ "display_name" dn ++
      ('\n' :: lineE "token_expires_at" ea)))))))) from rfl]
  rw [splitL_first_chunk ['\n'] _ _ (by decide) (safe1_of_not_mem '\n' _ _ q1)]
  rw [show ('\n' :: (lineQ "access_token" at_ ++ ('\n' :: (lineQ "person_urn" pu ++
      ('\n' :: (lineQ "display_name" dn ++ ('\n' :: lineE "token_expires_at" ea))))))) =
    ['\n'] ++ (lineQ "access_token" at_ ++ ('\n' :: (lineQ "person_urn" pu ++
      ('\n' :: (lineQ "display_name" dn ++ ('\n' :: lineE "token_expires_at" ea)))))) from rfl]
  rw [splitL_first_chunk ['\n'] _ _ (by decide) (safe1_of_not_mem '\n' _ _ q2)]
  rw [show ('\n' :: (lineQ "person_urn" pu ++ ('\n' :: (lineQ "display_name" dn ++
      ('\n' :: lineE "token_expires_at" ea))))) =
    ['\n'] ++ (lineQ "person_urn" pu ++ ('\n' :: (lineQ "display_name" dn ++
      ('\n' :: lineE "token_expires_at" ea)))) from rfl]
  rw [splitL_first_chunk ['\n'] _ _ (by decide) (safe1_of_not_mem '\n' _ _ q3)]
  rw [show ('\n' :: (lineQ "display_name" dn ++ ('\n' :: lineE "token_expires_at" ea))) =
    ['\n'] ++ (lineQ "display_name" dn ++ ('\n' :: lineE "token_expires_at" ea)) from rfl]
  rw [splitL_first_chunk ['\n'] _ _ (by decide) (safe1_of_not_mem '\n' _ _ q4)]
  rw [show ('\n' :: lineE "token_expires_at" ea) = ['\n'] ++ lineE "token_expires_at" ea
    from rfl]
  rw [splitL_first_chunk ['\n'] _ _ (by decide) (safe1_of_not_mem '\n' _ _ q5)]
  rw [splitL_no_occ ['\n'] _ (fun m₂ hs hne => by
    have := safe1_of_not_mem '\n' _ [] q6 m₂ hs hne
    simpa using this)]

/-- The dictionary recovered from a saved file. -/
def settingsDict (cid cs at_ pu dn : String) (ea : Int) : PyDict :=
  [("client_id", cid), ("client_secret", cs), ("access_token", at_),
   ("person_urn", pu), ("display_name", dn), ("token_expires_at", intRepr ea)]

theorem parseFrontmatter_block (cid cs at_ pu dn : String) (ea : Int)
    (hg1 : goodVal cid = true) (hg2 : goodVal cs = true) (hg3 : goodVal at_ = true)
    (hg4 : goodVal pu = true) (hg5 : goodVal dn = true) :
    parseFrontmatter ⟨'\n' :: (fmInner cid cs at_ pu dn ea ++ ['\n'])⟩ =
      settingsDict cid cs at_ pu dn ea := by
  unfold parseFrontmatter
  rw [strip_block cid cs at_ pu dn ea]
  unfold pySplit
  rw [show ("\n" : String).data = ['\n'] from rfl]
  rw [show (⟨fmInner cid cs at_ pu dn ea⟩ : String).data = fmInner cid cs at_ pu dn ea
    from rfl]
  rw [split_fmInner cid cs at_ pu dn ea (goodVal_not_nl cid hg1) (goodVal_not_nl cs hg2)
    (goodVal_not_nl at_ hg3) (goodVal_not_nl pu hg4) (goodVal_not_nl dn hg5)]
  show List.foldl parseLine []
    [⟨lineQ "client_id" cid⟩, ⟨lineQ "client_secret" cs⟩, ⟨lineQ "access_token" at_⟩,
     ⟨lineQ "person_urn" pu⟩, ⟨lineQ "display_name" dn⟩, ⟨lineE "token_expires_at" ea⟩] = _
  simp only [List.foldl]
  rw [parseLine_quoted [] "client_id" cid (by decide) (by decide) hg1]
  rw [parseLine_quoted _ "client_secret" cs (by decide) (by decide) hg2]
  rw [parseLine_quoted _ "access_token" at_ (by decide) (by decide) hg3]
  rw [parseLine_quoted _ "person_urn" pu (by decide) (by decide) hg4]
  rw [parseLine_quoted _ "display_name" dn (by decide) (by decide) hg5]
  rw [parseLine_expiry _ "token_expires_at" ea (by decide) (by decide)]
  simp [dictSet, settingsDict]

/-- Equality of `Except` results is decidable componentwise (needed to
evaluate `load_settings` results on concrete inputs). -/
instance {ε α : Type} [DecidableEq ε] [DecidableEq α] : DecidableEq (Except ε α) :=
  fun a b =>
  match a, b with
  | .error e1, .error e2 =>
    if h : e1 = e2 then isTrue (by rw [h]) else isFalse (by simp [h])
  | .ok v1, .ok v2 =>
    if h : v1 = v2 then isTrue (by rw [h]) else isFalse (by simp [h])
  | .error _, .ok _ => isFalse (by simp)
  | .ok _, .error _ => isFalse (by simp)

/-- C4, counterexample: saving a record whose access token itself begins
and ends with a double-quote character and loading it back recovers a
different token — the quote characters are eaten by the parser's `strip`
chain — so the round-trip does not hold for arbitrary field values. -/
theorem C4_counterexample :
    load_settings true
      (save_settings "i" "s" (dqS ++ ("t" ++ dqS)) "p" "d" 0 9 "T") 1 =
      Except.ok [("client_id", "i"), ("client_secret", "s"), ("access_token", "t"),
        ("person_urn", "p"), ("display_name", "d"), ("token_expires_at", "9")] ∧
    ("t" : String) ≠ dqS ++ ("t" ++ dqS) := by
  decide

/-- C4 (amended): for every credential record written by `save_settings`
whose string fields are storage-safe (no newline, no `---` substring, not
beginning or ending with a quote character — `goodVal`), with non-empty
access token and person URN and a not-yet-expired expiry, a subsequent
`load_settings` succeeds and recovers the same `access_token`,
`person_urn`, `display_name`, and an expiry that parses back to the same
`token_expires_at` integer. -/
theorem C4_save_load_roundtrip (cid cs at_ pu dn ts : String) (now ei now2 : Int)
    (hg1 : goodVal cid = true) (hg2 : goodVal cs = true) (hg3 : goodVal at_ = true)
    (hg4 : goodVal pu = true) (hg5 : goodVal dn = true)
    (hat : at_ ≠ "") (hpu : pu ≠ "")
    (hexp : ¬(now + ei ≠ 0 ∧ now2 > now + ei)) :
    load_settings true (save_settings cid cs at_ pu dn now ei ts) now2 =
      Except.ok (settingsDict cid cs at_ pu dn (now + ei)) ∧
    dictFind? (settingsDict cid cs at_ pu dn (now + ei)) "access_token" = some at_ ∧
    dictFind? (settingsDict cid cs at_ pu dn (now + ei)) "person_urn" = some pu ∧
    dictFind? (settingsDict cid cs at_ pu dn (now + ei)) "display_name" = some dn ∧
    storedExpiry? (settingsDict cid cs at_ pu dn (now + ei)) = some (now + ei) := by
  have hse : storedExpiry? (settingsDict cid cs at_ pu dn (now + ei)) = some (now + ei) := by
    unfold storedExpiry?
    rw [show dictFind? (settingsDict cid cs at_ pu dn (now + ei)) "token_expires_at" =
      some (intRepr (now + ei)) from rfl]
    exact pyIntParse?_intRepr (now + ei)
  refine ⟨?_, rfl, rfl, rfl, hse⟩
  have hsw : pyStartsWith (save_settings cid cs at_ pu dn now ei ts) "---" = true := by
    unfold pyStartsWith
    rw [show ("---" : String).data = dash3 from rfl]
    show dash3.isPrefixOf (dash3 ++ ('\n' :: (fmInner cid cs at_ pu dn (now + ei) ++
      ('\n' :: (dash3 ++ save_tail dn pu ts))))) = true
    exact isPrefixOf_self_append _ _
  have hD : parseFrontmatter
      ((pySplit "---" (save_settings cid cs at_ pu dn now ei ts)).getD 1 "") =
      settingsDict cid cs at_ pu dn (now + ei) := by
    rw [save_split cid cs at_ pu dn ts now ei (goodVal_noDash3 cid hg1)
      (goodVal_noDash3 cs hg2) (goodVal_noDash3 at_ hg3) (goodVal_noDash3 pu hg4)
      (goodVal_noDash3 dn hg5)]
    exact parseFrontmatter_block cid cs at_ pu dn (now + ei) hg1 hg2 hg3 hg4 hg5
  have hfa : dictFind? (settingsDict cid cs at_ pu dn (now + ei)) "access_token" =
    some at_ := rfl
  have hfp : dictFind? (settingsDict cid cs at_ pu dn (now + ei)) "person_urn" =
    some pu := rfl
  have hat' : (at_ == "") = false := beq_eq_false_iff_ne.mpr hat
  have hpu' : (pu == "") = false := beq_eq_false_iff_ne.mpr hpu
  unfold load_settings
  rw [if_neg (by decide)]
  rw [hsw]
  rw [if_neg (by decide)]
  rw [hD, hfa]
  show (if at_ == "" then Except.error LoadError.missingAccessToken else _) = _
  rw [hat']
  simp only [Bool.false_eq_true, if_false]
  rw [hfp]
  show (if pu == "" then Except.error LoadError.missingPersonUrn else _) = _
  rw [hpu']
  simp only [Bool.false_eq_true, if_false]
  rw [hse]
  show (if (now + ei ≠ 0 ∧ now2 > now + ei) then Except.error LoadError.tokenExpired
    else _) = _
  rw [if_neg hexp]

/-- C4 witness: the round-trip theorem at a concrete record. -/
theorem C4_save_load_roundtrip_witness :
    load_settings true (save_settings "id1" "sec" "tok" "urn:li:person:x" "Jane Doe"
      100 5184000 "2026-01-01") 200 =
      Except.ok (settingsDict "id1" "sec" "tok" "urn:li:person:x" "Jane Doe"
        (100 + 5184000)) ∧
    dictFind? (settingsDict "id1" "sec" "tok" "urn:li:person:x" "Jane Doe"
      (100 + 5184000)) "access_token" = some "tok" :=
  ⟨(C4_save_load_roundtrip "id1" "sec" "tok" "urn:li:person:x" "Jane Doe" "2026-01-01"
      100 5184000 200 (by decide) (by decide) (by decide) (by decide) (by decide)
      (by decide) (by decide) (by decide)).1,
   (C4_save_load_roundtrip "id1" "sec" "tok" "urn:li:person:x" "Jane Doe" "2026-01-01"
      100 5184000 200 (by decide) (by decide) (by decide) (by decide) (by decide)
      (by decide) (by decide) (by decide)).2.1⟩

/- ### C8: the expiry check of load_settings -/

/-- C8 (amended): for any settings file whose frontmatter passes the
required-field checks (non-empty `access_token` and `person_urn`) and
whose `token_expires_at` parses to the integer `ea` (0 when the field is
unset), `load_settings` fails with the distinct TokenExpired error
exactly when `ea` is non-zero and the current time is strictly greater
than `ea`.  In particular a record with `token_expires_at` equal to zero
or unset is never rejected for expiry — but, unlike the original claim,
negative stored values are rejected too. -/
theorem C8_token_expiry_check (content : String) (now : Int) (a p : String) (ea : Int)
    (hstart : pyStartsWith content "---" = true)
    (ha : dictFind? (parseFrontmatter ((pySplit "---" content).getD 1 ""))
      "access_token" = some a)
    (hane : a ≠ "")
    (hp : dictFind? (parseFrontmatter ((pySplit "---" content).getD 1 ""))
      "person_urn" = some p)
    (hpne : p ≠ "")
    (he : storedExpiry? (parseFrontmatter ((pySplit "---" content).getD 1 "")) =
      some ea) :
    load_settings true content now = Except.error LoadError.tokenExpired ↔
      (ea ≠ 0 ∧ now > ea) := by
  unfold load_settings
  rw [if_neg (by decide)]
  rw [hstart]
  rw [if_neg (by decide)]
  rw [ha]
  show ((if a == "" then Except.error LoadError.missingAccessToken else _) = _) ↔ _
  rw [beq_eq_false_iff_ne.mpr hane]
  simp only [Bool.false_eq_true, if_false]
  rw [hp]
  show ((if p == "" then Except.error LoadError.missingPersonUrn else _) = _) ↔ _
  rw [beq_eq_false_iff_ne.mpr hpne]
  simp only [Bool.false_eq_true, if_false]
  rw [he]
  show ((if ea ≠ 0 ∧ now > ea then Except.error LoadError.tokenExpired
    else Except.ok (parseFrontmatter ((pySplit "---" content).getD 1 ""))) =
    Except.error LoadError.tokenExpired) ↔ (ea ≠ 0 ∧ now > ea)
  by_cases hc : ea ≠ 0 ∧ now > ea
  · rw [if_pos hc]
    simp [hc]
  · rw [if_neg hc]
    simp [hc]

/-- A concrete settings file with a positive stored expiry. -/
def c8Content : String :=
  "---\naccess_token: " ++ (dqS ++ ("x" ++ (dqS ++ ("\nperson_urn: " ++ (dqS ++
    ("y" ++ (dqS ++ "\ntoken_expires_at: 50\n---")))))))

/-- A concrete settings file whose stored expiry is the negative value -1. -/
def c8ContentNeg : String :=
  "---\naccess_token: " ++ (dqS ++ ("x" ++ (dqS ++ ("\nperson_urn: " ++ (dqS ++
    ("y" ++ (dqS ++ "\ntoken_expires_at: -1\n---")))))))

/-- C8, counterexample: a record whose stored `token_expires_at` is the
negative value -1 (not a positive value) is nevertheless rejected with
TokenExpired at current time 100, because the code's truthiness test
`if expires_at` only excludes zero, not negative values. -/
theorem C8_counterexample :
    load_settings true c8ContentNeg 100 = Except.error LoadError.tokenExpired ∧
    storedExpiry? (parseFrontmatter ((pySplit "---" c8ContentNeg).getD 1 "")) =
      some (-1) ∧
    ¬(0 < (-1 : Int)) := by
  decide

/-- C8 witness: the amended theorem at a concrete expired record. -/
theorem C8_token_expiry_check_witness :
    load_settings true c8Content 100 = Except.error LoadError.tokenExpired ↔
      ((50 : Int) ≠ 0 ∧ (100 : Int) > 50) :=
  C8_token_expiry_check c8Content 100 "x" "y" 50 (by decide) (by decide) (by decide)
    (by decide) (by decide) (by decide)
